import Mathlib

/-!
# Verification of the fitpulse identity-service core

Shallow embedding, in Lean 4, of the identity-service core of the
repository (services/identity-service/app): the in-memory sliding-window
rate limiter, the Redis-backed distributed rate limiter (atomic Lua path
and non-atomic fallback), the audit-log cursor codec, the account /
refresh-token / audit repository operations, and the `AccountService`
orchestration layer, together with theorems settling the specification
claims about them.

Modelling conventions, used throughout:

* Python `datetime` values and `time.time()` timestamps are modelled as
  integers (`Int`), an abstract linearly ordered clock.  Only ordering
  and subtraction of time values matter to the code under verification.
* Python `str` is `String`; `dict` metadata is an association list.
* Fallible code is modelled with `Option`/`Except`; a Python function
  that both mutates the store and raises returns the mutated state next
  to the `Except` result.
* Nondeterministic environment inputs (`uuid.uuid4()`, `NOW()`,
  `secrets.token_urlsafe`) are passed in explicitly as parameters.
-/

/-! ## In-memory sliding window rate limiter

Embedding of `app/security/rate_limiter.py`.  The per-key
`collections.deque` of event timestamps becomes a `List Int` (front of
the list = left end of the deque = oldest event); the `DefaultDict`
becomes an association list defaulting to `[]`.  The lock makes `allow`
atomic, so the embedding is a sequential state transformer. -/

/-- The state of `SlidingWindowRateLimiter`: configuration plus the
per-key event queues (`self._events`). -/
structure SlidingWindowRateLimiter where
  maxRequests : Nat
  window : Nat
  events : List (String × List Int)
deriving Repr, DecidableEq

namespace SlidingWindowRateLimiter

/-- `DefaultDict` read: the queue stored for `key`, `[]` when absent. -/
def lookupQueue (m : List (String × List Int)) (key : String) : List Int :=
  match m.find? (fun kv => kv.1 = key) with
  | some kv => kv.2
  | none => []

/-- Store `q` as the queue for `key` (replacing any previous binding). -/
def updateQueue (m : List (String × List Int)) (key : String) (q : List Int) :
    List (String × List Int) :=
  match m with
  | [] => [(key, q)]
  | kv :: rest =>
      if kv.1 = key then (key, q) :: rest else kv :: updateQueue rest key q

/-- The `while queue and now - queue[0] > self._window: queue.popleft()`
loop: drop timestamps from the front while strictly older than the
window. -/
def dropExpired (window : Nat) (now : Int) : List Int → List Int
  | [] => []
  | t :: ts => if now - t > (window : Int) then dropExpired window now ts else t :: ts

/-- `SlidingWindowRateLimiter.allow`, given the call time `now`
(`time.time()`).  Note that the expired-event drop mutates the stored
queue even when the call is rejected, exactly as `popleft` does. -/
def allow (L : SlidingWindowRateLimiter) (key : String) (now : Int) :
    Bool × SlidingWindowRateLimiter :=
  let q := dropExpired L.window now (lookupQueue L.events key)
  if L.maxRequests ≤ q.length then
    (false, { L with events := updateQueue L.events key q })
  else
    (true, { L with events := updateQueue L.events key (q ++ [now]) })

/-- A fresh limiter (`SlidingWindowRateLimiter(max_requests, window_seconds)`). -/
def init (maxRequests window : Nat) : SlidingWindowRateLimiter :=
  ⟨maxRequests, window, []⟩

/-- Run a sequence of `allow` calls on a single key at the given call
times, returning the decisions in order and the final limiter state. -/
def runKey (L : SlidingWindowRateLimiter) (key : String) :
    List Int → List Bool × SlidingWindowRateLimiter
  | [] => ([], L)
  | now :: rest =>
      let step := L.allow key now
      let tail := step.2.runKey key rest
      (step.1 :: tail.1, tail.2)

/-- The timestamps of the calls in `times` that were admitted (returned
`true`), in order, for a run on one key from state `L`. -/
def acceptedTimes (L : SlidingWindowRateLimiter) (key : String) :
    List Int → List Int
  | [] => []
  | now :: rest =>
      let step := L.allow key now
      if step.1 then now :: step.2.acceptedTimes key rest
      else step.2.acceptedTimes key rest

end SlidingWindowRateLimiter

/-! ## Decimal rendering and parsing

Shared helpers: Python `str(n)` / `f"{n}"` / Lua `tostring(n)` for an
integer value, and Python `int(s)` restricted to the strings those
renderings produce.  Used by the Redis rate limiter member strings and
by the audit-cursor codec. -/

/-- The ASCII digit character for `d` (meaningful for `d < 10`). -/
def digitChar (d : Nat) : Char := Char.ofNat (48 + d)

/-- Decimal rendering of a natural number, most significant digit
first, without leading zeros (`"0"` for zero). -/
def renderNat (n : Nat) : List Char :=
  if _h : n < 10 then [digitChar n]
  else renderNat (n / 10) ++ [digitChar (n % 10)]
decreasing_by exact Nat.div_lt_self (by omega) (by omega)

/-- Is `c` an ASCII decimal digit? -/
def isDigitChar (c : Char) : Bool := 48 ≤ c.toNat ∧ c.toNat ≤ 57

/-- The numeric value of an ASCII digit character. -/
def digitVal (c : Char) : Nat := c.toNat - 48

/-- Parse a nonempty all-digit string as a natural number. -/
def parseNat (l : List Char) : Option Nat :=
  if l ≠ [] ∧ l.all isDigitChar then
    some (l.foldl (fun acc c => acc * 10 + digitVal c) 0)
  else none

/-- Decimal rendering of an integer (`'-'` sign for negatives). -/
def renderInt (i : Int) : List Char :=
  if i < 0 then '-' :: renderNat (-i).toNat else renderNat i.toNat

/-- Parse an optionally `'-'`-signed decimal integer. -/
def parseInt (l : List Char) : Option Int :=
  match l with
  | [] => none
  | c :: rest =>
      if c = '-' then (parseNat rest).map (fun n => -(n : Int))
      else (parseNat l).map (fun n => (n : Int))

/-! ## Redis-backed sliding window rate limiter

Embedding of `app/security/redis_rate_limiter.py` for one rate key.
The Redis sorted set for the key is a list of `(member, score)` pairs;
the `<key>:seq` counter is a natural number (`INCR` of an absent key
yields 1); `PEXPIRE` is modelled by recording the TTL argument.  Both
execution paths are straight-line command sequences on this state, so a
single uninterleaved call is a pure state transformer. -/

/-- Backing-store state for one rate key: the sorted set under the key,
the `:seq` counter, and the last TTL set on each of the two keys. -/
structure RedisKeyState where
  zset : List (String × Int)
  seqCounter : Nat
  zsetTtlMs : Option Int
  seqTtlMs : Option Int
deriving Repr, DecidableEq

namespace RedisKeyState

/-- `ZREMRANGEBYSCORE key lo hi`: drop members with score in `[lo, hi]`. -/
def zremrangebyscore (z : List (String × Int)) (lo hi : Int) :
    List (String × Int) :=
  z.filter (fun ms => !(decide (lo ≤ ms.2) && decide (ms.2 ≤ hi)))

/-- `ZADD key score member`: update the member's score, or append it. -/
def zadd (z : List (String × Int)) (member : String) (score : Int) :
    List (String × Int) :=
  if z.any (fun ms => ms.1 = member) then
    z.map (fun ms => if ms.1 = member then (member, score) else ms)
  else z ++ [(member, score)]

/-- The member string `tostring(now_ms) .. ':' .. tostring(seq)`
(identically `f"{now_ms}:{seq}"` on the Python side). -/
def memberString (nowMs : Int) (seq : Nat) : String :=
  String.mk (renderInt nowMs) ++ ":" ++ String.mk (renderNat seq)

/-- The `_LUA_SCRIPT` body of `RedisSlidingWindowRateLimiter`, executed
atomically server-side: remove expired, count, reject without mutating
further, or `INCR` the per-key sequence, insert the `(timestamp, seq)`
member, and refresh both TTLs.  Returns the script's `0`/`1` reply and
the resulting store state. -/
def luaScriptAllow (windowMs : Int) (maxRequests : Nat) (nowMs : Int)
    (st : RedisKeyState) : Int × RedisKeyState :=
  let z1 := zremrangebyscore st.zset 0 (nowMs - windowMs)
  let current := z1.length
  if maxRequests ≤ current then
    (0, { st with zset := z1 })
  else
    let seq := st.seqCounter + 1
    let member := memberString nowMs seq
    (1, { zset := zadd z1 member nowMs
          seqCounter := seq
          zsetTtlMs := some windowMs
          seqTtlMs := some windowMs })

/-- `RedisSlidingWindowRateLimiter._allow_fallback`: the same steps as
the Lua script issued as separate client commands (here as one
uninterleaved call). -/
def allowFallback (windowMs : Int) (maxRequests : Nat) (nowMs : Int)
    (st : RedisKeyState) : Bool × RedisKeyState :=
  let windowStart := nowMs - windowMs
  let z1 := zremrangebyscore st.zset 0 windowStart
  let current := z1.length
  if maxRequests ≤ current then
    (false, { st with zset := z1 })
  else
    let seq := st.seqCounter + 1
    let member := memberString nowMs seq
    (true, { zset := zadd z1 member nowMs
             seqCounter := seq
             zsetTtlMs := some windowMs
             seqTtlMs := some windowMs })

end RedisKeyState

/-! ## Audit-log cursor codec

Embedding of `AccountService._encode_cursor` / `_decode_cursor`
(`app/domain/service.py`).  The pipeline is
`json.dumps` → UTF-8 bytes → `urlsafe_b64encode` on encode, and the
inverse chain on decode, with every decoding failure collapsed to
`ValueError("invalid cursor")` by the catch-all `except`.

Modelling choices: `datetime.isoformat` / `datetime.fromisoformat` are
an inverse pair on timezone-aware datetimes; with datetimes modelled as
integer timestamps they are modelled by decimal rendering / parsing
(`renderInt` / `parseInt`).  The payload is ASCII, so UTF-8 encoding is
`Char.toNat` per character.  The decoder accepts exactly the strings
the encoder produces; Python's decoder is more lenient in ways that
only enlarge its success set (whitespace, field order, integer
coercion), which no claim depends on. -/

/-- The urlsafe base64 alphabet character for a 6-bit value. -/
def b64Char (n : Nat) : Char :=
  if n < 26 then Char.ofNat (65 + n)
  else if n < 52 then Char.ofNat (97 + (n - 26))
  else if n < 62 then Char.ofNat (48 + (n - 52))
  else if n = 62 then '-' else '_'

/-- The 6-bit value of a urlsafe base64 alphabet character. -/
def b64Val (c : Char) : Option Nat :=
  if 65 ≤ c.toNat ∧ c.toNat ≤ 90 then some (c.toNat - 65)
  else if 97 ≤ c.toNat ∧ c.toNat ≤ 122 then some (c.toNat - 97 + 26)
  else if 48 ≤ c.toNat ∧ c.toNat ≤ 57 then some (c.toNat - 48 + 52)
  else if c = '-' then some 62
  else if c = '_' then some 63
  else none

/-- `base64.urlsafe_b64encode` over a byte list: 3 bytes per 4 output
characters, `'='`-padded. -/
def encodeB64 : List Nat → List Char
  | [] => []
  | [a] => [b64Char (a / 4), b64Char (a % 4 * 16), '=', '=']
  | [a, b] => [b64Char (a / 4), b64Char (a % 4 * 16 + b / 16), b64Char (b % 16 * 4), '=']
  | a :: b :: c :: rest =>
      b64Char (a / 4) :: b64Char (a % 4 * 16 + b / 16) ::
        b64Char (b % 16 * 4 + c / 64) :: b64Char (c % 64) :: encodeB64 rest

/-- `base64.urlsafe_b64decode` over the character list of the cursor
string: groups of 4 alphabet characters, strict about length and
padding placement, `none` on any malformed input. -/
def decodeB64 : List Char → Option (List Nat)
  | [] => some []
  | c1 :: c2 :: c3 :: c4 :: rest =>
      match b64Val c1, b64Val c2 with
      | some v1, some v2 =>
          if c3 = '=' then
            if c4 = '=' ∧ rest = [] then some [v1 * 4 + v2 / 16] else none
          else
            match b64Val c3 with
            | some v3 =>
                if c4 = '=' then
                  if rest = [] then
                    some [v1 * 4 + v2 / 16, v2 % 16 * 16 + v3 / 4]
                  else none
                else
                  match b64Val c4 with
                  | some v4 =>
                      (decodeB64 rest).map (fun ds =>
                        (v1 * 4 + v2 / 16) :: (v2 % 16 * 16 + v3 / 4) ::
                          (v3 % 4 * 64 + v4) :: ds)
                  | none => none
            | none => none
      | _, _ => none
  | _ => none

/-- The literal run of the JSON payload before the `created_at`
value (default separators: `", "` and `": "`). -/
def litCreated : List Char := "\x7b\"created_at\": \"".toList

/-- The literal run between the `created_at` value and the `audit_id`
value. -/
def litAudit : List Char := "\", \"audit_id\": ".toList

/-- The closing brace of the JSON payload. -/
def litClose : List Char := "\x7d".toList

/-- `json.dumps({"created_at": created_at.isoformat(), "audit_id": audit_id})`
with the datetime rendered as its integer timestamp. -/
def jsonPayload (createdAt auditId : Int) : List Char :=
  litCreated ++ (renderInt createdAt ++ (litAudit ++ (renderInt auditId ++ litClose)))

/-- Consume an expected literal run from the front of the input. -/
def dropLiteral : List Char → List Char → Option (List Char)
  | [], l => some l
  | _ :: _, [] => none
  | p :: ps, c :: cs => if c = p then dropLiteral ps cs else none

/-- Parse the JSON payload back into the
(`created_at`, `audit_id`) pair: `json.loads` followed by
`datetime.fromisoformat(data["created_at"])` and `int(data["audit_id"])`,
specialised to the exact shape the encoder emits; `none` on any
mismatch (Python reaches the same overall outcome through its
catch-all `except`). -/
def parsePayload (l : List Char) : Option (Int × Int) := do
  let r1 ← dropLiteral litCreated l
  let createdAt ← parseInt (r1.takeWhile (fun c => !(decide (c = '"'))))
  let r2 := r1.dropWhile (fun c => !(decide (c = '"')))
  let r3 ← dropLiteral litAudit r2
  let auditId ← parseInt (r3.takeWhile (fun c => !(decide (c = '\x7d'))))
  if r3.dropWhile (fun c => !(decide (c = '\x7d'))) = ['\x7d'] then
    some (createdAt, auditId)
  else none

/-- The error kind raised by `_decode_cursor`
(`ValueError("invalid cursor")`). -/
inductive CursorError where
  | invalidCursor
deriving Repr, DecidableEq

/-- `AccountService._encode_cursor` on a (`created_at`, `audit_id`)
pair: JSON payload, UTF-8 bytes (the payload is ASCII), urlsafe
base64. -/
def encodeCursor (createdAt auditId : Int) : String :=
  String.mk (encodeB64 ((jsonPayload createdAt auditId).map Char.toNat))

/-- `AccountService._decode_cursor`: base64-decode, decode bytes,
parse JSON and fields; any failure anywhere becomes
`ValueError("invalid cursor")`. -/
def decodeCursor (s : String) : Except CursorError (Int × Int) :=
  match (decodeB64 s.data).bind (fun bytes => parsePayload (bytes.map Char.ofNat)) with
  | some p => Except.ok p
  | none => Except.error CursorError.invalidCursor

/-! ## Identity service data model and repository

Embedding of `app/domain/account.py`, `app/domain/contracts.py`,
`app/repository.py` and `app/security/tokens.py`.  The Postgres tables
become lists of rows; each repository method is a pure function on a
`Db` value (each method runs in its own committed transaction).
Nondeterministic inputs (`uuid.uuid4()`, `NOW()`,
`secrets.token_urlsafe(48)`) and process configuration are passed in
explicitly; the SHA-256 digest `hash_refresh_token` is passed as an
abstract function `hashFn` (only equality of digests matters to the
code).  Only the columns the code reads back are modelled
(`email_hash`/`updated_at` are written but never read). -/

/-- Domain `Account` aggregate (as selected back from `accounts`:
`account_id, tenant_id, email_cipher, created_at, disabled`). -/
structure Account where
  account_id : String
  tenant_id : String
  email : String
  created_at : Int
  disabled : Bool
deriving Repr, DecidableEq

/-- `CreateAccountInput` from `app/domain/contracts.py`. -/
structure CreateAccountInput where
  tenant_id : String
  email : String
  disabled : Bool
deriving Repr, DecidableEq

/-- A `refresh_tokens` table row (with the `metadata` JSON reduced to
the one key the service writes, `{"scopes": [...]}`). -/
structure RefreshTokenRow where
  token_id : String
  account_id : String
  tenant_id : String
  token_hash : String
  expires_at : Int
  revoked_at : Option Int
  metadataScopes : List String
deriving Repr, DecidableEq

/-- The `metadata` JSON dicts the service writes to the audit log. -/
inductive AuditMeta where
  | empty
  | email (e : String)
  | scopes (s : List String)
  | refreshed (s : List String) (previousTokenId : String)
deriving Repr, DecidableEq

/-- An `identity_audit_log` row; `audit_id` is assigned by the
append-only database sequence. -/
structure AuditRow where
  audit_id : Int
  account_id : Option String
  tenant_id : Option String
  event_type : String
  actor : Option String
  meta : AuditMeta
  created_at : Int
deriving Repr, DecidableEq

/-- The persistent store reachable through `AccountRepository`. -/
structure Db where
  accounts : List Account
  idempotency : List (String × String × String)
  refreshTokens : List RefreshTokenRow
  auditLog : List AuditRow
  nextAuditId : Int
deriving Repr, DecidableEq

/-- Python truthiness of an optional string argument
(`if idempotency_key:` treats both `None` and `""` as absent). -/
def strTruthy : Option String → Bool
  | none => false
  | some s => !s.isEmpty

namespace Db

/-- The `account_idempotency` lookup
(`SELECT account_id ... WHERE tenant_id = %s AND idempotency_key = %s`). -/
def findIdempotency (db : Db) (tenant key : String) : Option String :=
  (db.idempotency.find? (fun r => r.1 = tenant ∧ r.2.1 = key)).map (fun r => r.2.2)

/-- `INSERT INTO account_idempotency ... ON CONFLICT (tenant_id,
idempotency_key) DO NOTHING`. -/
def insertIdempotency (db : Db) (tenant key aid : String) : Db :=
  if db.idempotency.any (fun r => r.1 = tenant ∧ r.2.1 = key) then db
  else { db with idempotency := db.idempotency ++ [(tenant, key, aid)] }

/-- `AccountRepository.get_account`: fetch by id scoped to the tenant. -/
def getAccount (db : Db) (account_id tenant_id : String) : Option Account :=
  db.accounts.find? (fun a => a.account_id = account_id ∧ a.tenant_id = tenant_id)

/-- `AccountRepository.create_account`.  `freshAccountId` stands for
`str(uuid.uuid4())` and `now` for `datetime.now(timezone.utc)`.
Returns `none` on the path where an idempotency mapping points at a
missing account row and `_map_record(None)` would raise. -/
def createAccount (db : Db) (payload : CreateAccountInput)
    (idempotencyKey : Option String) (freshAccountId : String) (now : Int) :
    Option (Account × Bool × Db) :=
  let hit : Option String :=
    if strTruthy idempotencyKey then
      db.findIdempotency payload.tenant_id (idempotencyKey.getD "")
    else none
  match hit with
  | some aid =>
      match db.getAccount aid payload.tenant_id with
      | some account => some (account, true, db)
      | none => none
  | none =>
      let account : Account :=
        ⟨freshAccountId, payload.tenant_id, payload.email, now, payload.disabled⟩
      let db1 : Db := { db with accounts := db.accounts ++ [account] }
      let db2 : Db :=
        if strTruthy idempotencyKey then
          db1.insertIdempotency payload.tenant_id (idempotencyKey.getD "") freshAccountId
        else db1
      some (account, false, db2)

/-- `AccountRepository.create_refresh_token`. -/
def createRefreshToken (db : Db) (token_id account_id tenant_id token_hash : String)
    (expires_at : Int) (scopes : List String) : Db :=
  { db with refreshTokens :=
      db.refreshTokens ++ [⟨token_id, account_id, tenant_id, token_hash,
        expires_at, none, scopes⟩] }

/-- `AccountRepository.find_refresh_token`: the first row with the
given hash whose `revoked_at IS NULL` (note: revoked rows are filtered
out here, not reported as revoked). -/
def findRefreshToken (db : Db) (token_hash : String) : Option RefreshTokenRow :=
  db.refreshTokens.find? (fun r => r.token_hash = token_hash ∧ r.revoked_at = none)

/-- `AccountRepository.revoke_refresh_token`:
`UPDATE ... SET revoked_at = NOW() WHERE token_id = %s AND revoked_at IS NULL`. -/
def revokeRefreshToken (db : Db) (token_id : String) (now : Int) : Db :=
  { db with refreshTokens := db.refreshTokens.map (fun r =>
      if r.token_id = token_id ∧ r.revoked_at = none then
        { r with revoked_at := some now }
      else r) }

/-- `AccountRepository.write_audit_event`: append-only insert;
`audit_id` comes from the table's monotone sequence and `created_at`
from the database clock. -/
def writeAuditEvent (db : Db) (account_id tenant_id : Option String)
    (event_type : String) (actor : Option String) (meta : AuditMeta)
    (now : Int) : Db :=
  { db with
      auditLog := db.auditLog ++
        [⟨db.nextAuditId, account_id, tenant_id, event_type, actor, meta, now⟩]
      nextAuditId := db.nextAuditId + 1 }

/-- The refresh-token rows among `ids` that are *active* at `now`
(`revoked_at is null and expires_at > now`). -/
def activeTokens (db : Db) (now : Int) (ids : List String) : List RefreshTokenRow :=
  db.refreshTokens.filter (fun r =>
    r.token_id ∈ ids ∧ r.revoked_at = none ∧ now < r.expires_at)

end Db

/-! ## Token issuance and the AccountService -/

/-- The configuration fields the token workflows read
(`app/config.py`; `refresh_ttl_seconds` is referenced by the service
and modelled as a plain configured value). -/
structure Settings where
  jwt_issuer : String
  jwt_ttl_seconds : Nat
  refresh_ttl_seconds : Nat
deriving Repr, DecidableEq

/-- The claims dict of the signed JWT; the HMAC signature adds no
information, so the token is modelled by its payload. -/
structure AccessTokenPayload where
  iss : String
  sub : String
  tenant_id : String
  scopes : List String
  iat : Int
  exp : Int
deriving Repr, DecidableEq

/-- The scope default inside `issue_access_token` (`app/security/tokens.py`). -/
def tokenDefaultScopes : List String :=
  ["activities:write", "activities:read", "ontology:read"]

/-- `issue_access_token`: resolve `scopes or default` (Python list
truthiness: `None` and `[]` both fall back) and build the claims. -/
def issueAccessToken (settings : Settings) (now : Int)
    (subject tenant_id : String) (scopes : Option (List String)) :
    AccessTokenPayload × Nat :=
  let expiresIn := settings.jwt_ttl_seconds
  let defaultScopes : List String :=
    match scopes with
    | none => tokenDefaultScopes
    | some [] => tokenDefaultScopes
    | some (s :: rest) => s :: rest
  (⟨settings.jwt_issuer, subject, tenant_id, defaultScopes, now,
    now + expiresIn⟩, expiresIn)

/-- The service-wide default scope set in `AccountService.issue_token`. -/
def serviceDefaultScopes : List String :=
  ["activities:write", "activities:read", "ontology:read", "ontology:write"]

/-- Scope resolution in `AccountService.issue_token`:
`scopes or default`, then `list({*effective_scopes, "ontology:write"})`
when the baseline is missing.  The Python set-to-list step has
unspecified order; it is modelled by `List.insert` and all theorems
compare scope lists as sets. -/
def effectiveScopesFor (scopes : Option (List String)) : List String :=
  let base : List String :=
    match scopes with
    | none => serviceDefaultScopes
    | some [] => serviceDefaultScopes
    | some (s :: rest) => s :: rest
  if "ontology:write" ∈ base then base else List.insert "ontology:write" base

/-- The distinct `ValueError` kinds raised by the token workflows,
by message: `account not found`, `invalid refresh token`,
`refresh token revoked`, `refresh token expired`, `account unavailable`. -/
inductive TokenError where
  | accountNotFound
  | invalidToken
  | revokedToken
  | expiredToken
  | accountUnavailable
deriving Repr, DecidableEq

/-- `TokenBundle` from `app/domain/service.py`. -/
structure TokenBundle where
  access_token : AccessTokenPayload
  access_expires_in : Nat
  refresh_token : String
  refresh_expires_in : Nat
  tenant_id : String
deriving Repr, DecidableEq

/-- Per-call environment of the token workflows: configuration, the
SHA-256 digest function, the clock reading used for the call, and the
fresh values drawn from `uuid4` / `token_urlsafe`. -/
structure Env where
  settings : Settings
  hashFn : String → String
  now : Int
  freshTokenId : String
  freshSecret : String

namespace AccountService

/-- `AccountService.create_account`: repository create, then an
`account.created` or `account.replayed` audit event. -/
def createAccount (db : Db) (payload : CreateAccountInput)
    (idempotencyKey : Option String) (freshAccountId : String) (now : Int) :
    Option (Account × Bool × Db) :=
  match db.createAccount payload idempotencyKey freshAccountId now with
  | none => none
  | some (account, replay, db1) =>
      if replay then
        some (account, true,
          db1.writeAuditEvent (some account.account_id) (some account.tenant_id)
            "account.replayed" (some account.account_id) AuditMeta.empty now)
      else
        some (account, false,
          db1.writeAuditEvent (some account.account_id) (some account.tenant_id)
            "account.created" (some account.account_id)
            (AuditMeta.email account.email) now)

/-- `AccountService.issue_token`: fetch the account, resolve effective
scopes, sign the access token, persist the hashed refresh token with
the configured refresh TTL, and emit `token.issued`. -/
def issueToken (env : Env) (db : Db) (account_id tenant_id : String)
    (scopes : Option (List String)) : Except TokenError (TokenBundle × Db) :=
  match db.getAccount account_id tenant_id with
  | none => Except.error TokenError.accountNotFound
  | some account =>
      let es := effectiveScopesFor scopes
      let issued := issueAccessToken env.settings env.now account.account_id
        tenant_id (some es)
      let refreshExpires := env.now + (env.settings.refresh_ttl_seconds : Int)
      let db1 := db.createRefreshToken env.freshTokenId account.account_id
        tenant_id (env.hashFn env.freshSecret) refreshExpires es
      let db2 := db1.writeAuditEvent (some account.account_id) (some tenant_id)
        "token.issued" (some account.account_id) (AuditMeta.scopes es) env.now
      Except.ok (⟨issued.1, issued.2, env.freshSecret,
        env.settings.refresh_ttl_seconds, tenant_id⟩, db2)

/-- `AccountService.refresh_access_token`: hash and find the record;
fail `invalidToken` when no unrevoked row matches, `revokedToken` when
the found row is revoked, `expiredToken` (after eagerly revoking) when
past expiry, `accountUnavailable` (after eagerly revoking) when the
account is gone or disabled; otherwise revoke the presented record,
issue a fresh bundle through `issue_token`, and emit `token.refreshed`.
The returned `Db` is the store state after all side effects, also on
the error paths. -/
def refreshAccessToken (env : Env) (db : Db) (refreshToken : String)
    (scopes : Option (List String)) : Except TokenError TokenBundle × Db :=
  let tokenHash := env.hashFn refreshToken
  match db.findRefreshToken tokenHash with
  | none => (Except.error TokenError.invalidToken, db)
  | some record =>
      if record.revoked_at.isSome then
        (Except.error TokenError.revokedToken, db)
      else if record.expires_at ≤ env.now then
        (Except.error TokenError.expiredToken,
          db.revokeRefreshToken record.token_id env.now)
      else
        match db.getAccount record.account_id record.tenant_id with
        | none =>
            (Except.error TokenError.accountUnavailable,
              db.revokeRefreshToken record.token_id env.now)
        | some account =>
            if account.disabled then
              (Except.error TokenError.accountUnavailable,
                db.revokeRefreshToken record.token_id env.now)
            else
              let db1 := db.revokeRefreshToken record.token_id env.now
              match issueToken env db1 account.account_id record.tenant_id scopes with
              | Except.error e => (Except.error e, db1)
              | Except.ok (bundle, db2) =>
                  let db3 := db2.writeAuditEvent (some record.account_id)
                    (some record.tenant_id) "token.refreshed"
                    (some record.account_id)
                    (AuditMeta.refreshed (scopes.getD []) record.token_id)
                    env.now
                  (Except.ok bundle, db3)

/-- The sequence of store states `refresh_access_token` passes through,
one entry per committed repository call (starting with the initial
state): each entry is a state an interruption could leave behind.
Mirrors the branch structure of `refreshAccessToken`. -/
def rotationTrace (env : Env) (db : Db) (refreshToken : String)
    (scopes : Option (List String)) : List Db :=
  match db.findRefreshToken (env.hashFn refreshToken) with
  | none => [db]
  | some record =>
      if record.revoked_at.isSome then [db]
      else if record.expires_at ≤ env.now then
        [db, db.revokeRefreshToken record.token_id env.now]
      else
        match db.getAccount record.account_id record.tenant_id with
        | none => [db, db.revokeRefreshToken record.token_id env.now]
        | some account =>
            if account.disabled then
              [db, db.revokeRefreshToken record.token_id env.now]
            else
              let db1 := db.revokeRefreshToken record.token_id env.now
              match db1.getAccount account.account_id record.tenant_id with
              | none => [db, db1]
              | some account2 =>
                  let es := effectiveScopesFor scopes
                  let db2 := db1.createRefreshToken env.freshTokenId
                    account2.account_id record.tenant_id
                    (env.hashFn env.freshSecret)
                    (env.now + (env.settings.refresh_ttl_seconds : Int)) es
                  let db3 := db2.writeAuditEvent (some account2.account_id)
                    (some record.tenant_id) "token.issued"
                    (some account2.account_id) (AuditMeta.scopes es) env.now
                  let db4 := db3.writeAuditEvent (some record.account_id)
                    (some record.tenant_id) "token.refreshed"
                    (some record.account_id)
                    (AuditMeta.refreshed (scopes.getD []) record.token_id)
                    env.now
                  [db, db1, db2, db3, db4]

end AccountService

/-! ## Audit log queries and pagination

Embedding of `AccountRepository.list_audit_events` and the service
wrapper.  The SQL `ORDER BY created_at DESC, audit_id DESC ... LIMIT`
over the filtered table becomes sort-descending-then-take; the SQL row
comparison `(created_at, audit_id) < (%s, %s)` is the lexicographic
order on pairs. -/

/-- Lexicographic `<` on (`created_at`, `audit_id`) pairs, as computed
by the SQL row-value comparison. -/
def pairLt (a b : Int × Int) : Prop :=
  a.1 < b.1 ∨ (a.1 = b.1 ∧ a.2 < b.2)

/-- Lexicographic `≤` on (`created_at`, `audit_id`) pairs. -/
def pairLe (a b : Int × Int) : Prop :=
  a.1 < b.1 ∨ (a.1 = b.1 ∧ a.2 ≤ b.2)

instance pairLt.instDecidable : ∀ a b, Decidable (pairLt a b) := fun a b =>
  decidable_of_iff (a.1 < b.1 ∨ (a.1 = b.1 ∧ a.2 < b.2)) Iff.rfl

instance pairLe.instDecidable : ∀ a b, Decidable (pairLe a b) := fun a b =>
  decidable_of_iff (a.1 < b.1 ∨ (a.1 = b.1 ∧ a.2 ≤ b.2)) Iff.rfl

/-- The composite ordering key of an audit row. -/
def auditKey (r : AuditRow) : Int × Int := (r.created_at, r.audit_id)

/-- `ORDER BY created_at DESC, audit_id DESC` as a (non-strict) total
preorder on rows: `x` comes no later than `y` iff `key y ≤ key x`. -/
def auditGE (x y : AuditRow) : Prop := pairLe (auditKey y) (auditKey x)

instance auditGE.instDecidable : ∀ x y, Decidable (auditGE x y) := fun x y =>
  pairLe.instDecidable (auditKey y) (auditKey x)

instance auditGE.instIsTotal : IsTotal AuditRow auditGE := by
  constructor
  intro x y
  unfold auditGE pairLe
  omega

instance auditGE.instIsTrans : IsTrans AuditRow auditGE := by
  constructor
  intro x y z hxy hyz
  unfold auditGE pairLe at hxy hyz ⊢
  omega

/-- The database sort of the filtered rows. -/
def sortAuditDesc (l : List AuditRow) : List AuditRow :=
  List.insertionSort auditGE l

/-- The `WHERE` clause of `list_audit_events`: tenant scope, the
optional filters (each added only when the Python argument is truthy),
and the cursor row comparison. -/
def auditMatch (tenant_id : String) (account_id event_type : Option String)
    (created_after created_before : Option Int) (cursor : Option (Int × Int))
    (r : AuditRow) : Bool :=
  decide (r.tenant_id = some tenant_id)
  && (match account_id with
      | some a => if a.isEmpty then true else decide (r.account_id = some a)
      | none => true)
  && (match event_type with
      | some e => if e.isEmpty then true else decide (r.event_type = e)
      | none => true)
  && (match created_after with
      | some t => decide (t ≤ r.created_at)
      | none => true)
  && (match created_before with
      | some t => decide (r.created_at ≤ t)
      | none => true)
  && (match cursor with
      | some c => decide (pairLt (auditKey r) c)
      | none => true)

/-- `limit = max(1, min(limit, 100))`: the page size clamped to
`[1, 100]`, as a natural number. -/
def pageLimit (limit : Int) : Nat := (max 1 (min limit 100)).toNat

namespace Db

/-- `AccountRepository.list_audit_events`: clamp the limit to
`[1, 100]`, filter, sort by (`created_at` desc, `audit_id` desc), take
one page, and return a next cursor exactly when the page is full. -/
def listAuditEvents (db : Db) (tenant_id : String)
    (account_id event_type : Option String)
    (created_after created_before : Option Int) (limit : Int)
    (cursor : Option (Int × Int)) : List AuditRow × Option (Int × Int) :=
  let lim : Nat := pageLimit limit
  let records := (sortAuditDesc (db.auditLog.filter
    (auditMatch tenant_id account_id event_type created_after created_before
      cursor))).take lim
  let nextCursor : Option (Int × Int) :=
    if records.length = lim then records.getLast?.map auditKey else none
  (records, nextCursor)

/-- Follow `next_cursor` repeatedly from a starting cursor,
concatenating the pages; `fuel` bounds the number of queries. -/
def paginateAuditEvents (db : Db) (tenant_id : String)
    (account_id event_type : Option String)
    (created_after created_before : Option Int) (limit : Int) :
    Nat → Option (Int × Int) → List AuditRow
  | 0, _ => []
  | Nat.succ fuel, cursor =>
      let q := db.listAuditEvents tenant_id account_id event_type
        created_after created_before limit cursor
      match q.2 with
      | none => q.1
      | some c =>
          q.1 ++ db.paginateAuditEvents tenant_id account_id event_type
            created_after created_before limit fuel (some c)

end Db

/-- `AccountService.list_audit_events`: decode the opaque cursor when
one is given (Python truthiness), query the repository, and encode the
next cursor. -/
def AccountService.listAuditEvents (db : Db) (tenant_id : String)
    (account_id event_type : Option String)
    (created_after created_before : Option Int) (limit : Int)
    (cursor : Option String) :
    Except CursorError (List AuditRow × Option String) :=
  match (if strTruthy cursor then
          (decodeCursor (cursor.getD "")).map some
         else Except.ok none : Except CursorError (Option (Int × Int))) with
  | Except.error e => Except.error e
  | Except.ok decoded =>
      let q := db.listAuditEvents tenant_id account_id event_type
        created_after created_before limit decoded
      Except.ok (q.1, q.2.map (fun p => encodeCursor p.1 p.2))

/-! ### Store well-formedness predicates used as theorem hypotheses -/

/-- Every stored refresh-token row carrying this hash is revoked. -/
def allRevokedFor (db : Db) (tokenHash : String) : Prop :=
  ∀ r ∈ db.refreshTokens, r.token_hash = tokenHash → r.revoked_at ≠ none

/-- No stored account row uses this account id (freshness of `uuid4`). -/
def accountIdFresh (db : Db) (aid : String) : Prop :=
  ∀ a ∈ db.accounts, a.account_id ≠ aid

/-- No stored refresh-token row uses this token id (freshness of `uuid4`). -/
def tokenIdFresh (db : Db) (tid : String) : Prop :=
  ∀ r ∈ db.refreshTokens, r.token_id ≠ tid

/-- `token_id` is a primary key: stored rows have pairwise distinct ids. -/
def tokenIdsDistinct (db : Db) : Prop :=
  db.refreshTokens.Pairwise (fun r1 r2 => r1.token_id ≠ r2.token_id)

/-- `audit_id` is assigned by a sequence: rows have pairwise distinct ids. -/
def auditIdsDistinct (db : Db) : Prop :=
  db.auditLog.Pairwise (fun r1 r2 => r1.audit_id ≠ r2.audit_id)

/-! ### Concrete sample fixtures (used to instantiate theorems) -/

/-- A concrete configuration. -/
def sampleSettings : Settings := ⟨"i5e.identity", 3600, 1209600⟩

/-- A concrete call environment; the digest function is instantiated
with the identity (any deterministic injection works for examples). -/
def sampleEnv : Env := ⟨sampleSettings, fun s => s, 100, "tok-new", "secret-new"⟩

/-- A concrete stored account. -/
def sampleAccount : Account := ⟨"acct-1", "t1", "user@example.com", 0, false⟩

/-- A stored refresh-token row that is expired but not yet revoked. -/
def sampleRowExpired : RefreshTokenRow := ⟨"tok-1", "acct-1", "t1", "raw-1", 50, none, []⟩

/-- A stored refresh-token row that has been revoked. -/
def sampleRowRevoked : RefreshTokenRow := ⟨"tok-1", "acct-1", "t1", "raw-1", 200, some 50, []⟩

/-- A stored refresh-token row that is active at time 100. -/
def sampleRowActive : RefreshTokenRow := ⟨"tok-1", "acct-1", "t1", "raw-1", 200, none, []⟩

/-- Store holding the expired row. -/
def sampleDbExpired : Db := ⟨[sampleAccount], [], [sampleRowExpired], [], 0⟩

/-- Store holding the revoked row. -/
def sampleDbRevoked : Db := ⟨[sampleAccount], [], [sampleRowRevoked], [], 0⟩

/-- Store holding the active row. -/
def sampleDbActive : Db := ⟨[sampleAccount], [], [sampleRowActive], [], 0⟩

/-- Store holding only the account. -/
def sampleDbAccount : Db := ⟨[sampleAccount], [], [], [], 0⟩

/-- The empty store. -/
def sampleDbEmpty : Db := ⟨[], [], [], [], 0⟩

/-- A concrete account-creation payload. -/
def samplePayload : CreateAccountInput := ⟨"t1", "user@example.com", false⟩

/-- The bundle produced by `issue_token` on `sampleDbAccount` with an
omitted (or empty) scope list. -/
def sampleIssuedBundle : TokenBundle :=
  ⟨⟨"i5e.identity", "acct-1", "t1", serviceDefaultScopes, 100, 3700⟩,
    3600, "secret-new", 1209600, "t1"⟩

/-- The store after that issuance. -/
def sampleIssuedDb : Db :=
  ⟨[sampleAccount], [],
    [⟨"tok-new", "acct-1", "t1", "secret-new", 1209700, none,
      serviceDefaultScopes⟩],
    [⟨0, some "acct-1", some "t1", "token.issued", some "acct-1",
      AuditMeta.scopes serviceDefaultScopes, 100⟩], 1⟩

/-- The bundle produced by `issue_token` on `sampleDbAccount` with the
caller-supplied scope list `["activities:read"]`. -/
def sampleSuppliedBundle : TokenBundle :=
  ⟨⟨"i5e.identity", "acct-1", "t1", ["ontology:write", "activities:read"],
    100, 3700⟩, 3600, "secret-new", 1209600, "t1"⟩

/-- The store after that issuance. -/
def sampleSuppliedDb : Db :=
  ⟨[sampleAccount], [],
    [⟨"tok-new", "acct-1", "t1", "secret-new", 1209700, none,
      ["ontology:write", "activities:read"]⟩],
    [⟨0, some "acct-1", some "t1", "token.issued", some "acct-1",
      AuditMeta.scopes ["ontology:write", "activities:read"], 100⟩], 1⟩

/-- Decidable equality for `Except` results (not provided by core). -/
instance {e a : Type} [DecidableEq e] [DecidableEq a] : DecidableEq (Except e a) := fun x y =>
  match x, y with
  | Except.ok v, Except.ok w =>
      if h : v = w then isTrue (by rw [h]) else isFalse (by simp [h])
  | Except.error v, Except.error w =>
      if h : v = w then isTrue (by rw [h]) else isFalse (by simp [h])
  | Except.ok _, Except.error _ => isFalse (by simp)
  | Except.error _, Except.ok _ => isFalse (by simp)

/-- Strict version of the audit ordering: `x` strictly precedes `y` in
the descending output order. -/
def auditGT (x y : AuditRow) : Prop := pairLt (auditKey y) (auditKey x)

instance auditGT.instIsAntisymm : IsAntisymm AuditRow auditGT := by
  constructor
  intro x y hxy hyx
  unfold auditGT pairLt at hxy hyx
  exfalso
  omega

/-- A small audit log used to instantiate the pagination theorem. -/
def sampleAuditDb : Db :=
  ⟨[], [], [],
    [⟨1, some "acct-1", some "t1", "account.created", some "acct-1",
       AuditMeta.empty, 10⟩,
     ⟨2, none, some "t1", "token.issued", none, AuditMeta.empty, 20⟩,
     ⟨3, none, some "t1", "token.refreshed", none, AuditMeta.empty, 20⟩],
    4⟩

-- DEFS-END-MARKER (service and audit definitions are appended above this line)

/-! ## Theorems -/

namespace SlidingWindowRateLimiter

theorem lookupQueue_updateQueue (m : List (String × List Int)) (key : String)
    (q : List Int) : lookupQueue (updateQueue m key q) key = q := by
  induction m with
  | nil => simp [lookupQueue, updateQueue, List.find?]
  | cons kv rest ih =>
      by_cases h : kv.1 = key
      · simp [updateQueue, h, lookupQueue, List.find?]
      · simpa [updateQueue, h, lookupQueue, List.find?] using ih

theorem dropExpired_eq_filter (W : Nat) (now : Int) (q : List Int)
    (hq : q.Pairwise (· ≤ ·)) :
    dropExpired W now q = q.filter (fun t => decide (now - t ≤ (W : Int))) := by
  induction q with
  | nil => simp [dropExpired]
  | cons t ts ih =>
      rw [List.pairwise_cons] at hq
      by_cases hc : now - t > (W : Int)
      · have hd : (decide (now - t ≤ (W : Int))) = false := by
          simp; omega
        simp only [dropExpired, if_pos hc, List.filter_cons, hd]
        exact ih hq.2
      · have hd : (decide (now - t ≤ (W : Int))) = true := by
          simp; omega
        have hts : ts.filter (fun t => decide (now - t ≤ (W : Int))) = ts := by
          apply List.filter_eq_self.mpr
          intro t' ht'
          have := hq.1 t' ht'
          simp; omega
        have h1 : dropExpired W now (t :: ts) = t :: ts := by
          simp only [dropExpired, if_neg hc]
        rw [h1, List.filter_cons, hd, if_pos rfl, hts]

theorem window_bound_aux (N W : Nat) (key : String) :
    ∀ (times : List Int), ∀ (acc : List Int) (ev : List (String × List Int)) (T : Int),
      times.Pairwise (· ≤ ·) →
      (∀ t ∈ times, T ≤ t) →
      lookupQueue ev key = acc.filter (fun t => decide (T - t ≤ (W : Int))) →
      acc.Pairwise (· ≤ ·) →
      (∀ t ∈ acc, t ≤ T) →
      (∀ a : Int,
        (acc.filter (fun t => decide (a ≤ t ∧ t ≤ a + (W : Int)))).length ≤ N) →
      ∀ a : Int,
        ((acc ++ acceptedTimes ⟨N, W, ev⟩ key times).filter
            (fun t => decide (a ≤ t ∧ t ≤ a + (W : Int)))).length ≤ N := by
  intro times
  induction times with
  | nil =>
      intro acc ev T _ _ _ _ _ hcnt a
      simpa [acceptedTimes] using hcnt a
  | cons now rest ih =>
      intro acc ev T hPW hTle hq hacc hub hcnt a
      have hTnow : T ≤ now := hTle now (by simp)
      have hqPW : (lookupQueue ev key).Pairwise (· ≤ ·) := by
        rw [hq]; exact hacc.sublist (List.filter_sublist acc)
      have hclean : dropExpired W now (lookupQueue ev key) =
          acc.filter (fun t => decide (now - t ≤ (W : Int))) := by
        rw [dropExpired_eq_filter W now _ hqPW, hq, List.filter_filter]
        apply List.filter_congr
        intro t _
        simp; omega
      rw [List.pairwise_cons] at hPW
      by_cases hfull : N ≤ (dropExpired W now (lookupQueue ev key)).length
      · -- rejected call: queue cleaned in place, nothing recorded
        have hstep : acceptedTimes ⟨N, W, ev⟩ key (now :: rest) =
            acceptedTimes ⟨N, W,
              updateQueue ev key (dropExpired W now (lookupQueue ev key))⟩ key rest := by
          simp only [acceptedTimes, allow]
          rw [if_pos hfull]
          simp
        rw [hstep]
        refine ih acc _ now hPW.2 hPW.1 ?_ hacc ?_ hcnt a
        · rw [lookupQueue_updateQueue, hclean]
        · intro t ht; exact le_trans (hub t ht) hTnow
      · -- admitted call: `now` is appended to the queue and recorded
        have hstep : acceptedTimes ⟨N, W, ev⟩ key (now :: rest) =
            now :: acceptedTimes ⟨N, W,
              updateQueue ev key
                (dropExpired W now (lookupQueue ev key) ++ [now])⟩ key rest := by
          simp only [acceptedTimes, allow]
          rw [if_neg hfull]
          simp
        rw [hstep]
        have hgoal :
            acc ++ now :: acceptedTimes ⟨N, W,
              updateQueue ev key
                (dropExpired W now (lookupQueue ev key) ++ [now])⟩ key rest =
            (acc ++ [now]) ++ acceptedTimes ⟨N, W,
              updateQueue ev key
                (dropExpired W now (lookupQueue ev key) ++ [now])⟩ key rest := by
          simp
        rw [hgoal]
        refine ih (acc ++ [now]) _ now hPW.2 hPW.1 ?_ ?_ ?_ ?_ a
        · rw [lookupQueue_updateQueue, hclean, List.filter_append]
          simp
        · rw [List.pairwise_append]
          refine ⟨hacc, by simp, ?_⟩
          intro t ht t' ht'
          simp at ht'
          subst ht'
          exact le_trans (hub t ht) hTnow
        · intro t ht
          rcases List.mem_append.mp ht with h | h
          · exact le_trans (hub t h) hTnow
          · simp at h; omega
        · intro b
          rw [List.filter_append]
          by_cases hbw : b ≤ now ∧ now ≤ b + (W : Int)
          · have hsub : List.Sublist
                (acc.filter (fun t => decide (b ≤ t ∧ t ≤ b + (W : Int))))
                (acc.filter (fun t => decide (now - t ≤ (W : Int)))) := by
              apply List.monotone_filter_right
              intro t ht
              simp at ht ⊢
              omega
            have hlt : (acc.filter
                (fun t => decide (b ≤ t ∧ t ≤ b + (W : Int)))).length < N := by
              have h1 := hsub.length_le
              rw [← hclean] at h1
              omega
            have hone : ([now].filter
                (fun t => decide (b ≤ t ∧ t ≤ b + (W : Int)))).length ≤ 1 := by
              simpa using
                List.length_filter_le (fun t => decide (b ≤ t ∧ t ≤ b + (W : Int))) [now]
            rw [List.length_append]
            omega
          · have hzero : [now].filter
                (fun t => decide (b ≤ t ∧ t ≤ b + (W : Int))) = [] := by
              simp
              omega
            rw [hzero]
            simpa using hcnt b

end SlidingWindowRateLimiter

/-- C3: for every sequence of `allow(key)` calls on a single key of a
`SlidingWindowRateLimiter(max_requests=N, window_seconds=W)` with
nondecreasing call timestamps, (1) at most `N` of the calls whose
timestamps lie in any trailing `W`-second sub-window `[a, a + W]`
return `true`; (2) a call returns `true` iff, after discarding events
older than `W` seconds, fewer than `N` recorded events remain; and
(3) a new event (`now`) is recorded in the key's queue exactly when the
call returns `true` (the expired-event drop happens either way). -/
theorem C3_rate_limiter_sliding_window :
    (∀ (N W : Nat) (key : String) (times : List Int),
      times.Chain' (· ≤ ·) →
      ∀ a : Int,
        ((SlidingWindowRateLimiter.acceptedTimes
            (SlidingWindowRateLimiter.init N W) key times).filter
              (fun t => decide (a ≤ t ∧ t ≤ a + (W : Int)))).length ≤ N)
    ∧ (∀ (L : SlidingWindowRateLimiter) (key : String) (now : Int),
      ((L.allow key now).1 = true ↔
        (SlidingWindowRateLimiter.dropExpired L.window now
          (SlidingWindowRateLimiter.lookupQueue L.events key)).length < L.maxRequests)
      ∧ SlidingWindowRateLimiter.lookupQueue (L.allow key now).2.events key =
          (if (L.allow key now).1 = true then
            SlidingWindowRateLimiter.dropExpired L.window now
              (SlidingWindowRateLimiter.lookupQueue L.events key) ++ [now]
           else
            SlidingWindowRateLimiter.dropExpired L.window now
              (SlidingWindowRateLimiter.lookupQueue L.events key))) := by
  constructor
  · intro N W key times hchain a
    have hpw : times.Pairwise (· ≤ ·) := List.chain'_iff_pairwise.mp hchain
    cases times with
    | nil => simp [SlidingWindowRateLimiter.acceptedTimes, SlidingWindowRateLimiter.init]
    | cons t0 rest =>
        have hle : ∀ t ∈ t0 :: rest, t0 ≤ t := by
          intro t ht
          rcases List.mem_cons.mp ht with h | h
          · exact h ▸ le_refl t0
          · exact (List.pairwise_cons.mp hpw).1 t h
        have h := SlidingWindowRateLimiter.window_bound_aux N W key (t0 :: rest)
          [] [] t0 hpw hle rfl (by simp) (by simp) (by simp) a
        simpa [SlidingWindowRateLimiter.init] using h
  · intro L key now
    by_cases hfull : L.maxRequests ≤
        (SlidingWindowRateLimiter.dropExpired L.window now
          (SlidingWindowRateLimiter.lookupQueue L.events key)).length
    · constructor
      · simp only [SlidingWindowRateLimiter.allow, if_pos hfull]
        simp
        omega
      · simp only [SlidingWindowRateLimiter.allow, if_pos hfull]
        simp [SlidingWindowRateLimiter.lookupQueue_updateQueue]
    · constructor
      · simp only [SlidingWindowRateLimiter.allow, if_neg hfull]
        simp
        omega
      · simp only [SlidingWindowRateLimiter.allow, if_neg hfull]
        simp [SlidingWindowRateLimiter.lookupQueue_updateQueue]

/-- Witness for C3 at a concrete run: `max_requests=1`, `window=10`,
calls at times `0, 5, 20` on key `x`; the window `[0, 10]` admits at
most one accepted call. -/
theorem C3_rate_limiter_sliding_window_witness :
    List.Chain' (· ≤ ·) ([0, 5, 20] : List Int) ∧
    ((SlidingWindowRateLimiter.acceptedTimes
        (SlidingWindowRateLimiter.init 1 10) "x" [0, 5, 20]).filter
          (fun t => decide ((0 : Int) ≤ t ∧ t ≤ 0 + (10 : Int)))).length ≤ 1 :=
  ⟨by norm_num [List.chain'_cons],
   C3_rate_limiter_sliding_window.1 1 10 "x" [0, 5, 20]
     (by norm_num [List.chain'_cons]) 0⟩

theorem digitVal_digitChar (d : Nat) (h : d < 10) : digitVal (digitChar d) = d := by
  interval_cases d <;> rfl

theorem isDigitChar_digitChar (d : Nat) (h : d < 10) :
    isDigitChar (digitChar d) = true := by
  interval_cases d <;> rfl

theorem digitChar_ne_dash (d : Nat) (h : d < 10) : digitChar d ≠ '-' := by
  interval_cases d <;> decide

theorem renderNat_ne_nil (n : Nat) : renderNat n ≠ [] := by
  rw [renderNat]
  split <;> simp

theorem renderNat_all_digits (n : Nat) : (renderNat n).all isDigitChar = true := by
  induction n using Nat.strong_induction_on with
  | _ n ih =>
      rw [renderNat]
      split
      · simpa using isDigitChar_digitChar n (by omega)
      · rename_i h
        rw [List.all_append]
        have h1 := ih (n / 10) (Nat.div_lt_self (by omega) (by omega))
        have h2 := isDigitChar_digitChar (n % 10) (Nat.mod_lt n (by omega))
        simp [h1, h2]

theorem renderNat_foldl (n : Nat) : ∀ a : Nat,
    (renderNat n).foldl (fun acc c => acc * 10 + digitVal c) a =
      a * 10 ^ (renderNat n).length + n := by
  induction n using Nat.strong_induction_on with
  | _ n ih =>
      intro a
      rw [renderNat]
      split
      · rename_i h
        simp [List.foldl, digitVal_digitChar n h]
      · rename_i h
        rw [List.foldl_append, ih (n / 10) (Nat.div_lt_self (by omega) (by omega)) a]
        have hmod : n % 10 < 10 := Nat.mod_lt n (by omega)
        simp only [List.foldl, digitVal_digitChar _ hmod, List.length_append,
          List.length_singleton]
        rw [pow_succ]
        have : a * (10 ^ (renderNat (n / 10)).length * 10) =
            a * 10 ^ (renderNat (n / 10)).length * 10 := by ring
        rw [this]
        omega

theorem parseNat_renderNat (n : Nat) : parseNat (renderNat n) = some n := by
  rw [parseNat, if_pos ⟨renderNat_ne_nil n, renderNat_all_digits n⟩]
  rw [renderNat_foldl n 0]
  simp

theorem renderNat_head_digit (n : Nat) :
    ∀ c rest, renderNat n = c :: rest → isDigitChar c = true := by
  intro c rest h
  have := renderNat_all_digits n
  rw [h] at this
  simp [List.all_cons] at this
  exact this.1

theorem parseInt_renderInt (i : Int) : parseInt (renderInt i) = some i := by
  by_cases h : i < 0
  · rw [renderInt, if_pos h]
    have h2 : ((-i).toNat : Int) = -i := Int.toNat_of_nonneg (by omega)
    simp [parseInt, parseNat_renderNat, h2]
  · rw [renderInt, if_neg h]
    rcases hr : renderNat i.toNat with _ | ⟨c, rest⟩
    · exact absurd hr (renderNat_ne_nil _)
    · have hc : c ≠ '-' := by
        have := renderNat_head_digit i.toNat c rest hr
        intro hcc
        rw [hcc] at this
        simp [isDigitChar] at this
      rw [parseInt.eq_def]
      simp only [if_neg hc]
      rw [← hr, parseNat_renderNat]
      simp [Int.toNat_of_nonneg (not_lt.mp h)]

/-- C9: for every key state and every single uninterleaved call, the
atomic Lua-script path and the non-atomic fallback path of the
distributed rate limiter return the same accept/reject decision
(`allow` maps the script reply through `int(result) == 1`) and leave
the backing store in the same state: same expired members removed, same
conditional `(timestamp, sequence)` member insert, same counter
increment and TTL refresh on accept only. -/
theorem C9_redis_fallback_refines_script (windowMs : Int) (maxRequests : Nat)
    (nowMs : Int) (st : RedisKeyState) :
    (RedisKeyState.allowFallback windowMs maxRequests nowMs st).1 =
      decide ((RedisKeyState.luaScriptAllow windowMs maxRequests nowMs st).1 = 1) ∧
    (RedisKeyState.allowFallback windowMs maxRequests nowMs st).2 =
      (RedisKeyState.luaScriptAllow windowMs maxRequests nowMs st).2 := by
  unfold RedisKeyState.allowFallback RedisKeyState.luaScriptAllow
  by_cases h : maxRequests ≤
      (RedisKeyState.zremrangebyscore st.zset 0 (nowMs - windowMs)).length
  · simp [h]
  · simp [h]

theorem b64Val_b64Char : ∀ n : Nat, n < 64 → b64Val (b64Char n) = some n := by
  decide

theorem b64Char_ne_eq_sign : ∀ n : Nat, n < 64 → b64Char n ≠ '=' := by
  decide

theorem decodeB64_encodeB64 (l : List Nat) (hl : ∀ x ∈ l, x < 256) :
    decodeB64 (encodeB64 l) = some l := by
  induction l using encodeB64.induct with
  | case1 => rfl
  | case2 a =>
      have h1 : a < 256 := hl a (by simp)
      simp only [encodeB64, decodeB64]
      rw [b64Val_b64Char _ (by omega), b64Val_b64Char _ (by omega)]
      simp
      omega
  | case3 a b =>
      have h1 : a < 256 := hl a (by simp)
      have h2 : b < 256 := hl b (by simp)
      have hv1 := b64Val_b64Char (a / 4) (by omega)
      have hv2 := b64Val_b64Char (a % 4 * 16 + b / 16) (by omega)
      have hv3 := b64Val_b64Char (b % 16 * 4) (by omega)
      have hne3 := b64Char_ne_eq_sign (b % 16 * 4) (by omega)
      simp [encodeB64, decodeB64, hv1, hv2, hv3, hne3]
      omega
  | case4 a b c rest ih =>
      have h1 : a < 256 := hl a (by simp)
      have h2 : b < 256 := hl b (by simp)
      have h3 : c < 256 := hl c (by simp)
      have hrest : ∀ x ∈ rest, x < 256 := by
        intro x hx
        exact hl x (by simp [hx])
      have hv1 := b64Val_b64Char (a / 4) (by omega)
      have hv2 := b64Val_b64Char (a % 4 * 16 + b / 16) (by omega)
      have hv3 := b64Val_b64Char (b % 16 * 4 + c / 64) (by omega)
      have hv4 := b64Val_b64Char (c % 64) (by omega)
      have hne3 := b64Char_ne_eq_sign (b % 16 * 4 + c / 64) (by omega)
      have hne4 := b64Char_ne_eq_sign (c % 64) (by omega)
      simp [encodeB64, decodeB64, hv1, hv2, hv3, hv4, hne3, hne4, ih hrest]
      omega

theorem dropLiteral_append (pre rest : List Char) :
    dropLiteral pre (pre ++ rest) = some rest := by
  induction pre with
  | nil => rfl
  | cons p ps ih => simp [dropLiteral, ih]

theorem takeWhile_append_stop (p : Char → Bool) (xs : List Char)
    (hxs : ∀ c ∈ xs, p c = true) (y : Char) (hy : p y = false) (ys : List Char) :
    (xs ++ y :: ys).takeWhile p = xs ∧ (xs ++ y :: ys).dropWhile p = y :: ys := by
  induction xs with
  | nil => simp [List.takeWhile_cons, List.dropWhile_cons, hy]
  | cons x xs ih =>
      have hx : p x = true := hxs x (by simp)
      have ih2 := ih (fun c hc => hxs c (by simp [hc]))
      simp [List.takeWhile_cons, List.dropWhile_cons, hx, ih2.1, ih2.2]

theorem renderInt_digit_or_dash (i : Int) :
    ∀ c ∈ renderInt i, isDigitChar c = true ∨ c = '-' := by
  intro c hc
  rw [renderInt] at hc
  have hdig : ∀ n : Nat, c ∈ renderNat n → isDigitChar c = true := by
    intro n hn
    exact List.all_eq_true.mp (renderNat_all_digits n) c hn
  split at hc
  · rcases List.mem_cons.mp hc with h | h
    · exact Or.inr h
    · exact Or.inl (hdig _ h)
  · exact Or.inl (hdig _ hc)

theorem renderInt_not_quote (i : Int) :
    ∀ c ∈ renderInt i, (!(decide (c = '"'))) = true := by
  intro c hc
  rcases renderInt_digit_or_dash i c hc with h | h
  · simp only [Bool.not_eq_eq_eq_not, Bool.not_true, decide_eq_false_iff_not]
    intro hq
    rw [hq] at h
    exact absurd h (by decide)
  · rw [h]; decide

theorem renderInt_not_brace (i : Int) :
    ∀ c ∈ renderInt i, (!(decide (c = '\x7d'))) = true := by
  intro c hc
  rcases renderInt_digit_or_dash i c hc with h | h
  · simp only [Bool.not_eq_eq_eq_not, Bool.not_true, decide_eq_false_iff_not]
    intro hq
    rw [hq] at h
    exact absurd h (by decide)
  · rw [h]; decide

theorem parsePayload_jsonPayload (t aid : Int) :
    parsePayload (jsonPayload t aid) = some (t, aid) := by
  unfold parsePayload jsonPayload
  rw [dropLiteral_append]
  simp only [Option.bind_eq_bind, Option.some_bind]
  have hsplit1 : litAudit ++ (renderInt aid ++ litClose) =
      '"' :: ((", \"audit_id\": " : String).toList ++ (renderInt aid ++ litClose)) := rfl
  rw [hsplit1]
  have htw := takeWhile_append_stop (fun c => !(decide (c = '"'))) (renderInt t)
    (renderInt_not_quote t) '"' (by decide)
    ((", \"audit_id\": " : String).toList ++ (renderInt aid ++ litClose))
  rw [htw.1, htw.2, parseInt_renderInt]
  simp only [Option.some_bind]
  have hsplit2 : '"' :: ((", \"audit_id\": " : String).toList ++ (renderInt aid ++ litClose)) =
      litAudit ++ (renderInt aid ++ litClose) := rfl
  rw [hsplit2, dropLiteral_append]
  simp only [Option.some_bind]
  have hclose : renderInt aid ++ litClose = renderInt aid ++ '\x7d' :: [] := rfl
  rw [hclose]
  have htw2 := takeWhile_append_stop (fun c => !(decide (c = '\x7d'))) (renderInt aid)
    (renderInt_not_brace aid) '\x7d' (by decide) []
  rw [htw2.1, htw2.2, parseInt_renderInt]
  simp

theorem jsonPayload_ascii (t aid : Int) :
    ∀ c ∈ jsonPayload t aid, c.toNat < 256 := by
  intro c hc
  unfold jsonPayload at hc
  have hrender : ∀ i : Int, c ∈ renderInt i → c.toNat < 256 := by
    intro i hi
    rcases renderInt_digit_or_dash i c hi with h | h
    · simp [isDigitChar] at h
      omega
    · rw [h]; decide
  simp only [List.mem_append] at hc
  rcases hc with h | h | h | h | h
  · revert h
    have : ∀ c ∈ litCreated, c.toNat < 256 := by decide
    exact this c
  · exact hrender t h
  · revert h
    have : ∀ c ∈ litAudit, c.toNat < 256 := by decide
    exact this c
  · exact hrender aid h
  · revert h
    have : ∀ c ∈ litClose, c.toNat < 256 := by decide
    exact this c

/-- C8: (1) the audit cursor codec round-trips: decoding an encoded
(`created_at`, `audit_id`) pair returns the identical pair, with no
information loss; (2) decoding any string either succeeds or fails with
exactly `InvalidCursor` (`ValueError("invalid cursor")`) — the
catch-all handler admits no other fault. -/
theorem C8_cursor_codec_roundtrip :
    (∀ createdAt auditId : Int,
      decodeCursor (encodeCursor createdAt auditId) =
        Except.ok (createdAt, auditId)) ∧
    (∀ s : String, (∃ p, decodeCursor s = Except.ok p) ∨
      decodeCursor s = Except.error CursorError.invalidCursor) := by
  constructor
  · intro t aid
    unfold decodeCursor encodeCursor
    have hbytes : ∀ x ∈ (jsonPayload t aid).map Char.toNat, x < 256 := by
      intro x hx
      rcases List.mem_map.mp hx with ⟨c, hc, hcx⟩
      rw [← hcx]
      exact jsonPayload_ascii t aid c hc
    rw [show (String.mk (encodeB64 ((jsonPayload t aid).map Char.toNat))).data =
        encodeB64 ((jsonPayload t aid).map Char.toNat) from rfl]
    rw [decodeB64_encodeB64 _ hbytes]
    simp only [Option.some_bind, List.map_map]
    have hid : (jsonPayload t aid).map (Char.ofNat ∘ Char.toNat) = jsonPayload t aid := by
      have hgen : ∀ l : List Char, l.map (Char.ofNat ∘ Char.toNat) = l := by
        intro l
        induction l with
        | nil => rfl
        | cons c cs ih => simp [ih, Char.ofNat_toNat]
      exact hgen _
    rw [hid, parsePayload_jsonPayload]
  · intro s
    unfold decodeCursor
    rcases h : (decodeB64 s.data).bind (fun bytes => parsePayload (bytes.map Char.ofNat)) with _ | p
    · right; simp [h]
    · left; exact ⟨p, by simp [h]⟩

/-! ### Refresh-token repository lemmas -/

theorem findRefreshToken_spec (db : Db) (tokenHash : String)
    (record : RefreshTokenRow)
    (hf : db.findRefreshToken tokenHash = some record) :
    record ∈ db.refreshTokens ∧ record.token_hash = tokenHash ∧
      record.revoked_at = none := by
  unfold Db.findRefreshToken at hf
  have hmem := List.mem_of_find?_eq_some hf
  have hp := List.find?_some hf
  simp at hp
  exact ⟨hmem, hp.1, hp.2⟩

theorem revokeRefreshToken_idempotent (db : Db) (tid : String) (t1 t2 : Int) :
    (db.revokeRefreshToken tid t1).revokeRefreshToken tid t2 =
      db.revokeRefreshToken tid t1 := by
  unfold Db.revokeRefreshToken
  have hmap : ∀ l : List RefreshTokenRow,
      (l.map (fun r => if r.token_id = tid ∧ r.revoked_at = none then
        { r with revoked_at := some t1 } else r)).map
          (fun r => if r.token_id = tid ∧ r.revoked_at = none then
            { r with revoked_at := some t2 } else r) =
      l.map (fun r => if r.token_id = tid ∧ r.revoked_at = none then
        { r with revoked_at := some t1 } else r) := by
    intro l
    induction l with
    | nil => rfl
    | cons r rest ih =>
        simp only [List.map_cons, ih]
        by_cases hr : r.token_id = tid ∧ r.revoked_at = none
        · simp [hr]
        · simp [if_neg hr, hr]
  simp [hmap]

theorem revokeRefreshToken_all_revoked (db : Db) (tid : String) (now : Int) :
    ∀ r ∈ (db.revokeRefreshToken tid now).refreshTokens,
      r.token_id = tid → r.revoked_at ≠ none := by
  intro r hr htid
  unfold Db.revokeRefreshToken at hr
  simp only [List.mem_map] at hr
  rcases hr with ⟨r0, _, hr0⟩
  by_cases hc : r0.token_id = tid ∧ r0.revoked_at = none
  · rw [if_pos hc] at hr0
    rw [← hr0]
    simp
  · rw [if_neg hc] at hr0
    subst hr0
    intro hnone
    exact hc ⟨htid, hnone⟩

/-- C7: a refresh token that is found, not yet revoked, but past its
`expires_at` makes `refresh_access_token` fail with `ExpiredToken`
(`ValueError("refresh token expired")`), and before the error is
reported the record is eagerly revoked: the resulting store is exactly
the one produced by `revoke_refresh_token`, every row with that token
id is left revoked, and the revocation update is idempotent (a second
revoke of the same record changes nothing). -/
theorem C7_expired_token_eager_revoke (env : Env) (db : Db) (raw : String)
    (scopes : Option (List String)) (record : RefreshTokenRow)
    (hfind : db.findRefreshToken (env.hashFn raw) = some record)
    (hexp : record.expires_at ≤ env.now) :
    (AccountService.refreshAccessToken env db raw scopes).1 =
        Except.error TokenError.expiredToken
    ∧ (AccountService.refreshAccessToken env db raw scopes).2 =
        db.revokeRefreshToken record.token_id env.now
    ∧ (∀ r ∈ (AccountService.refreshAccessToken env db raw scopes).2.refreshTokens,
        r.token_id = record.token_id → r.revoked_at ≠ none)
    ∧ (∀ (db2 : Db) (tid : String) (t1 t2 : Int),
        (db2.revokeRefreshToken tid t1).revokeRefreshToken tid t2 =
          db2.revokeRefreshToken tid t1) := by
  have hrev := (findRefreshToken_spec db _ record hfind).2.2
  have hres : AccountService.refreshAccessToken env db raw scopes =
      (Except.error TokenError.expiredToken,
        db.revokeRefreshToken record.token_id env.now) := by
    simp only [AccountService.refreshAccessToken]
    rw [hfind]
    simp [hrev, hexp]
  refine ⟨by rw [hres], by rw [hres], ?_, fun db2 tid t1 t2 =>
    revokeRefreshToken_idempotent db2 tid t1 t2⟩
  rw [hres]
  exact revokeRefreshToken_all_revoked db record.token_id env.now

/-- Witness for C7: an expired unrevoked row presented at time 100
yields `ExpiredToken`. -/
theorem C7_expired_token_eager_revoke_witness :
    sampleDbExpired.findRefreshToken (sampleEnv.hashFn "raw-1") =
        some sampleRowExpired
    ∧ sampleRowExpired.expires_at ≤ sampleEnv.now
    ∧ (AccountService.refreshAccessToken sampleEnv sampleDbExpired
        "raw-1" none).1 = Except.error TokenError.expiredToken :=
  ⟨by decide, by decide,
    (C7_expired_token_eager_revoke sampleEnv sampleDbExpired "raw-1" none
      sampleRowExpired (by decide) (by decide)).1⟩

/-- C2, settled against the code as written: the spec expects a revoked
refresh secret to fail with `RevokedToken`, but
`AccountRepository.find_refresh_token` filters on `revoked_at IS NULL`,
so a revoked record is never returned and the service's
`refresh token revoked` branch is unreachable.  Part (1): no call to
`refresh_access_token` can ever fail with `RevokedToken`.  Part (2):
when every stored record bearing the presented secret's hash is
revoked, the call deterministically fails — but with `InvalidToken`
(`ValueError("invalid refresh token")`), never succeeding.  Revocation
stickiness holds; the reported error kind contradicts the spec. -/
theorem C2_revoked_secret_error_kind :
    (∀ (env : Env) (db : Db) (raw : String) (scopes : Option (List String)),
      (AccountService.refreshAccessToken env db raw scopes).1 ≠
        Except.error TokenError.revokedToken)
    ∧ (∀ (env : Env) (db : Db) (raw : String) (scopes : Option (List String)),
      allRevokedFor db (env.hashFn raw) →
      (AccountService.refreshAccessToken env db raw scopes).1 =
        Except.error TokenError.invalidToken) := by
  constructor
  · intro env db raw scopes
    simp only [AccountService.refreshAccessToken]
    cases hf : db.findRefreshToken (env.hashFn raw) with
    | none => simp
    | some record =>
        have hrev := (findRefreshToken_spec db _ record hf).2.2
        simp only [hrev, Option.isSome_none, Bool.false_eq_true, if_false]
        by_cases hexp : record.expires_at ≤ env.now
        · simp [hexp]
        · simp only [if_neg hexp]
          cases hacct : db.getAccount record.account_id record.tenant_id with
          | none => simp
          | some account =>
              by_cases hdis : account.disabled
              · simp [hdis]
              · simp only [hdis, Bool.false_eq_true, if_false]
                cases hit : AccountService.issueToken env
                    (db.revokeRefreshToken record.token_id env.now)
                    account.account_id record.tenant_id scopes with
                | error e =>
                    have he : e = TokenError.accountNotFound := by
                      unfold AccountService.issueToken at hit
                      cases hga : (db.revokeRefreshToken record.token_id
                          env.now).getAccount account.account_id record.tenant_id with
                      | none =>
                          rw [hga] at hit
                          simp at hit
                          exact hit.symm
                      | some a2 =>
                          rw [hga] at hit
                          simp at hit
                    subst he
                    simp [hit]
                | ok pair => simp [hit]
  · intro env db raw scopes hall
    have hf : db.findRefreshToken (env.hashFn raw) = none := by
      unfold Db.findRefreshToken
      rw [List.find?_eq_none]
      intro r hr
      simp only [decide_eq_true_eq, not_and]
      intro hhash
      exact hall r hr hhash
    simp only [AccountService.refreshAccessToken]
    rw [hf]

/-- Witness for C2: a store whose only row for the presented hash is
revoked makes `refresh_access_token` fail with `InvalidToken`. -/
theorem C2_revoked_secret_error_kind_witness :
    allRevokedFor sampleDbRevoked (sampleEnv.hashFn "raw-1")
    ∧ (AccountService.refreshAccessToken sampleEnv sampleDbRevoked
        "raw-1" none).1 = Except.error TokenError.invalidToken :=
  ⟨by unfold allRevokedFor; decide,
    C2_revoked_secret_error_kind.2 sampleEnv sampleDbRevoked "raw-1" none
      (by unfold allRevokedFor; decide)⟩

/-! ### Scope resolution lemmas -/

theorem effectiveScopesFor_ne_nil (scopes : Option (List String)) :
    effectiveScopesFor scopes ≠ [] := by
  have hbase : ∀ base : List String, base ≠ [] →
      (if "ontology:write" ∈ base then base
       else List.insert "ontology:write" base) ≠ [] := by
    intro base hb
    split
    · exact hb
    · rename_i hmem
      rw [List.insert_of_not_mem hmem]
      simp
  rcases scopes with _ | (_ | ⟨s, rest⟩)
  · exact hbase serviceDefaultScopes (by simp [serviceDefaultScopes])
  · exact hbase serviceDefaultScopes (by simp [serviceDefaultScopes])
  · exact hbase (s :: rest) (by simp)

theorem mem_effectiveScopesFor (scopes : Option (List String)) :
    "ontology:write" ∈ effectiveScopesFor scopes := by
  have hbase : ∀ base : List String,
      "ontology:write" ∈ (if "ontology:write" ∈ base then base
        else List.insert "ontology:write" base) := by
    intro base
    split
    · assumption
    · exact List.mem_insert_self _ _
  rcases scopes with _ | (_ | ⟨s, rest⟩)
  · exact hbase serviceDefaultScopes
  · exact hbase serviceDefaultScopes
  · exact hbase (s :: rest)

theorem issueAccessToken_scopes (settings : Settings) (now : Int)
    (subject tenant_id : String) (es : List String) (hne : es ≠ []) :
    (issueAccessToken settings now subject tenant_id (some es)).1.scopes = es := by
  unfold issueAccessToken
  cases es with
  | nil => exact absurd rfl hne
  | cons s rest => rfl

/-- C10: an explicit empty scopes list is treated exactly as an omitted
one: `issue_token` (and hence `refresh_access_token`) behaves
identically for `scopes=[]` and `scopes=None`; the effective scopes of
the empty-list call are the full service-wide default set; and a
successfully issued token never carries an empty `scopes` claim. -/
theorem C10_empty_scope_list_is_omitted :
    (∀ (env : Env) (db : Db) (account_id tenant_id : String),
      AccountService.issueToken env db account_id tenant_id (some []) =
        AccountService.issueToken env db account_id tenant_id none)
    ∧ (∀ (env : Env) (db : Db) (raw : String),
      AccountService.refreshAccessToken env db raw (some []) =
        AccountService.refreshAccessToken env db raw none)
    ∧ effectiveScopesFor (some []) = serviceDefaultScopes
    ∧ (∀ (env : Env) (db : Db) (account_id tenant_id : String)
        (scopes : Option (List String)) (bundle : TokenBundle) (db2 : Db),
      AccountService.issueToken env db account_id tenant_id scopes =
        Except.ok (bundle, db2) →
      bundle.access_token.scopes ≠ []) := by
  refine ⟨fun env db account_id tenant_id => rfl, fun env db raw => rfl,
    by decide, ?_⟩
  intro env db account_id tenant_id scopes bundle db2 hres
  unfold AccountService.issueToken at hres
  cases hga : db.getAccount account_id tenant_id with
  | none => rw [hga] at hres; simp at hres
  | some account =>
      rw [hga] at hres
      simp only [Except.ok.injEq, Prod.mk.injEq] at hres
      have hb := hres.1
      rw [← hb]
      simp only
      rw [issueAccessToken_scopes _ _ _ _ _ (effectiveScopesFor_ne_nil scopes)]
      exact effectiveScopesFor_ne_nil scopes

/-- Witness for C10: issuing with `scopes=[]` on a concrete store
yields the default-scope bundle, whose scopes claim is nonempty. -/
theorem C10_empty_scope_list_is_omitted_witness :
    AccountService.issueToken sampleEnv sampleDbAccount "acct-1" "t1" (some []) =
      Except.ok (sampleIssuedBundle, sampleIssuedDb)
    ∧ sampleIssuedBundle.access_token.scopes ≠ [] :=
  ⟨by decide,
    C10_empty_scope_list_is_omitted.2.2.2 sampleEnv sampleDbAccount "acct-1"
      "t1" (some []) sampleIssuedBundle sampleIssuedDb (by decide)⟩

/-- C6 counterexample: a caller who explicitly supplies `scopes=[]`
does not receive "the supplied scopes with the baseline added" (which
would be exactly `{"ontology:write"}`): Python's `scopes or default`
treats the empty list as absent, so the token carries the full default
set instead. -/
theorem C6_baseline_scope_counterexample :
    AccountService.issueToken sampleEnv sampleDbAccount "acct-1" "t1"
      (some []) = Except.ok (sampleIssuedBundle, sampleIssuedDb)
    ∧ sampleIssuedBundle.access_token.scopes.toFinset ≠
        (([] : List String).toFinset ∪ {"ontology:write"}) := by
  constructor
  · decide
  · decide

/-- C6 as amended: for every successful `issue_token` call, the scopes
claim of the signed access token contains the mandatory baseline
`ontology:write`; when scopes is omitted the claim equals (as a set)
the service-wide default set; and when the caller supplies a
*non-empty* scopes list the claim equals (as a set) the supplied scopes
with the baseline added if missing.  (An explicitly empty list falls
back to the default set, see the counterexample and C10.) -/
theorem C6_baseline_scope_policy (env : Env) (db : Db)
    (account_id tenant_id : String) (scopes : Option (List String))
    (bundle : TokenBundle) (db2 : Db)
    (hres : AccountService.issueToken env db account_id tenant_id scopes =
      Except.ok (bundle, db2)) :
    "ontology:write" ∈ bundle.access_token.scopes
    ∧ (scopes = none →
        bundle.access_token.scopes.toFinset = serviceDefaultScopes.toFinset)
    ∧ (∀ l, scopes = some l → l ≠ [] →
        bundle.access_token.scopes.toFinset =
          insert "ontology:write" l.toFinset) := by
  have hscopes : bundle.access_token.scopes = effectiveScopesFor scopes := by
    unfold AccountService.issueToken at hres
    cases hga : db.getAccount account_id tenant_id with
    | none => rw [hga] at hres; simp at hres
    | some account =>
        rw [hga] at hres
        simp only [Except.ok.injEq, Prod.mk.injEq] at hres
        rw [← hres.1]
        simp only
        exact issueAccessToken_scopes _ _ _ _ _ (effectiveScopesFor_ne_nil scopes)
  rw [hscopes]
  refine ⟨mem_effectiveScopesFor scopes, ?_, ?_⟩
  · intro hnone
    subst hnone
    decide
  · intro l hl hlne
    subst hl
    cases l with
    | nil => exact absurd rfl hlne
    | cons s rest =>
        show (if "ontology:write" ∈ s :: rest then s :: rest
          else List.insert "ontology:write" (s :: rest)).toFinset = _
        split
        · rename_i hmem
          symm
          exact Finset.insert_eq_self.mpr (List.mem_toFinset.mpr hmem)
        · rename_i hmem
          rw [List.insert_of_not_mem hmem, List.toFinset_cons]

/-- Witness for C6 (amended): a supplied non-empty list
`["activities:read"]` yields a scopes claim equal, as a set, to the
supplied list plus the baseline. -/
theorem C6_baseline_scope_policy_witness :
    AccountService.issueToken sampleEnv sampleDbAccount "acct-1" "t1"
      (some ["activities:read"]) =
        Except.ok (sampleSuppliedBundle, sampleSuppliedDb)
    ∧ sampleSuppliedBundle.access_token.scopes.toFinset =
        insert "ontology:write" (["activities:read"] : List String).toFinset :=
  ⟨by decide,
    (C6_baseline_scope_policy sampleEnv sampleDbAccount "acct-1" "t1"
      (some ["activities:read"]) sampleSuppliedBundle sampleSuppliedDb
      (by decide)).2.2 ["activities:read"] rfl (by decide)⟩

/-! ### Account creation lemmas -/

theorem strTruthy_some (key : String) (h : key ≠ "") :
    strTruthy (some key) = true := by
  unfold strTruthy
  rcases hb : key.isEmpty with _ | _
  · simp [hb]
  · exact absurd ((String.isEmpty_iff key).mp hb) h

/-- C1 counterexample: with the idempotency key `""` (a supplied but
falsy key), the second `create_account` call on the same
(`tenant_id`, `idempotency_key`) pair does *not* replay: it returns
`replay=false`, persists a second account row, and allocates a fresh
account id, because `if idempotency_key:` treats the empty string as
absent. -/
theorem C1_idempotent_create_counterexample :
    ((AccountService.createAccount sampleDbEmpty samplePayload (some "")
        "acct-1" 0).bind
      (fun r1 => (AccountService.createAccount r1.2.2 samplePayload (some "")
        "acct-2" 1).map
          (fun r2 => (r2.2.1, r2.2.2.accounts.length, r2.1.account_id)))) =
      some (false, 2, "acct-2") := by
  decide

/-- C1 as amended: for every *non-empty* `idempotency_key`, if
`create_account` is called with a (`tenant_id`, `idempotency_key`) pair
after a previous `create_account` with the same pair completed, it
returns the existing account (same `account_id` and fields) with
`replay = true`, persists no new account row and no new mapping, and
appends an `account.replayed` audit event as its only side effect; the
first call returns `replay = false`. -/
theorem C1_idempotent_create_replay (db : Db)
    (payload payload2 : CreateAccountInput) (key : String) (hkey : key ≠ "")
    (freshId1 freshId2 : String) (now1 now2 : Int)
    (hfresh : accountIdFresh db freshId1)
    (hnokey : db.findIdempotency payload.tenant_id key = none)
    (htenant : payload2.tenant_id = payload.tenant_id) :
    ∃ db1 : Db,
      AccountService.createAccount db payload (some key) freshId1 now1 =
        some (⟨freshId1, payload.tenant_id, payload.email, now1,
          payload.disabled⟩, false, db1)
      ∧ AccountService.createAccount db1 payload2 (some key) freshId2 now2 =
          some (⟨freshId1, payload.tenant_id, payload.email, now1,
            payload.disabled⟩, true,
            db1.writeAuditEvent (some freshId1) (some payload.tenant_id)
              "account.replayed" (some freshId1) AuditMeta.empty now2)
      ∧ (db1.writeAuditEvent (some freshId1) (some payload.tenant_id)
          "account.replayed" (some freshId1) AuditMeta.empty now2).accounts =
          db1.accounts
      ∧ (db1.writeAuditEvent (some freshId1) (some payload.tenant_id)
          "account.replayed" (some freshId1) AuditMeta.empty now2).idempotency =
          db1.idempotency
      ∧ (db1.writeAuditEvent (some freshId1) (some payload.tenant_id)
          "account.replayed" (some freshId1) AuditMeta.empty now2).refreshTokens =
          db1.refreshTokens
      ∧ (db1.writeAuditEvent (some freshId1) (some payload.tenant_id)
          "account.replayed" (some freshId1) AuditMeta.empty now2).auditLog =
          db1.auditLog ++
            [⟨db1.nextAuditId, some freshId1, some payload.tenant_id,
              "account.replayed", some freshId1, AuditMeta.empty, now2⟩] := by
  have ht := strTruthy_some key hkey
  have hfind0 : db.idempotency.find?
      (fun r => r.1 = payload.tenant_id ∧ r.2.1 = key) = none := by
    unfold Db.findIdempotency at hnokey
    exact Option.map_eq_none'.mp hnokey
  have hany : db.idempotency.any
      (fun r => r.1 = payload.tenant_id ∧ r.2.1 = key) = false := by
    rw [List.any_eq_false]
    intro r hr
    have := List.find?_eq_none.mp hfind0 r hr
    simpa using this
  have hacc0 : db.accounts.find?
      (fun a => a.account_id = freshId1 ∧ a.tenant_id = payload.tenant_id) =
        none := by
    rw [List.find?_eq_none]
    intro a ha
    simp only [decide_eq_true_eq, not_and]
    intro haid
    exact absurd haid (hfresh a ha)
  refine ⟨⟨db.accounts ++ [⟨freshId1, payload.tenant_id, payload.email, now1,
      payload.disabled⟩],
    db.idempotency ++ [(payload.tenant_id, key, freshId1)],
    db.refreshTokens,
    db.auditLog ++ [⟨db.nextAuditId, some freshId1, some payload.tenant_id,
      "account.created", some freshId1, AuditMeta.email payload.email, now1⟩],
    db.nextAuditId + 1⟩, ?_, ?_, rfl, rfl, rfl, rfl⟩
  · unfold AccountService.createAccount Db.createAccount
    simp only [ht, if_true, Option.getD_some, hnokey]
    unfold Db.insertIdempotency
    simp only [hany, Bool.false_eq_true, if_false]
    simp [Db.writeAuditEvent]
  · unfold AccountService.createAccount Db.createAccount
    simp only [ht, if_true, Option.getD_some, htenant]
    have hfind1 : Db.findIdempotency
        ⟨db.accounts ++ [⟨freshId1, payload.tenant_id, payload.email, now1,
            payload.disabled⟩],
          db.idempotency ++ [(payload.tenant_id, key, freshId1)],
          db.refreshTokens,
          db.auditLog ++ [⟨db.nextAuditId, some freshId1,
            some payload.tenant_id, "account.created", some freshId1,
            AuditMeta.email payload.email, now1⟩],
          db.nextAuditId + 1⟩ payload.tenant_id key = some freshId1 := by
      unfold Db.findIdempotency
      simp only [List.find?_append, hfind0, Option.none_or]
      simp [List.find?]
    rw [hfind1]
    simp only []
    have hget1 : Db.getAccount
        ⟨db.accounts ++ [⟨freshId1, payload.tenant_id, payload.email, now1,
            payload.disabled⟩],
          db.idempotency ++ [(payload.tenant_id, key, freshId1)],
          db.refreshTokens,
          db.auditLog ++ [⟨db.nextAuditId, some freshId1,
            some payload.tenant_id, "account.created", some freshId1,
            AuditMeta.email payload.email, now1⟩],
          db.nextAuditId + 1⟩ freshId1 payload.tenant_id =
        some ⟨freshId1, payload.tenant_id, payload.email, now1,
          payload.disabled⟩ := by
      unfold Db.getAccount
      simp only [List.find?_append, hacc0, Option.none_or]
      simp [List.find?]
    simp only [hget1]
    simp [Db.writeAuditEvent]

/-- Witness for C1 (amended): creating twice with the non-empty key
`"k1"` on an empty store replays the first account. -/
theorem C1_idempotent_create_replay_witness :
    ("k1" : String) ≠ ""
    ∧ accountIdFresh sampleDbEmpty "acct-1"
    ∧ sampleDbEmpty.findIdempotency "t1" "k1" = none
    ∧ ((AccountService.createAccount sampleDbEmpty samplePayload (some "k1")
        "acct-1" 0).bind
      (fun r1 => (AccountService.createAccount r1.2.2 samplePayload
        (some "k1") "acct-2" 1).map (fun r2 => (r2.1, r2.2.1)))) =
        some (⟨"acct-1", "t1", "user@example.com", 0, false⟩, true) := by
  obtain ⟨db1, h1, h2, h3, h4, h5, h6⟩ :=
    C1_idempotent_create_replay sampleDbEmpty samplePayload samplePayload
      "k1" (by decide) "acct-1" "acct-2" 0 1
      (by unfold accountIdFresh; decide) (by decide) rfl
  refine ⟨by decide, by unfold accountIdFresh; decide, by decide, ?_⟩
  rw [h1]
  simp only [Option.some_bind]
  rw [h2]
  rfl

/-! ### Rotation lineage lemmas -/

theorem tokenIdFresh_revoke (db : Db) (tid : String) (t : Int) (fresh : String)
    (h : tokenIdFresh db fresh) :
    tokenIdFresh (db.revokeRefreshToken tid t) fresh := by
  intro r hr
  unfold Db.revokeRefreshToken at hr
  simp only [List.mem_map] at hr
  rcases hr with ⟨r0, hr0, heq⟩
  by_cases hc : r0.token_id = tid ∧ r0.revoked_at = none
  · rw [if_pos hc] at heq
    rw [← heq]
    exact h r0 hr0
  · rw [if_neg hc] at heq
    rw [← heq]
    exact h r0 hr0

theorem activeTokens_revoked_nil (db : Db) (tid : String) (now t : Int)
    (fresh : String) (hfresh : tokenIdFresh db fresh) :
    (db.revokeRefreshToken tid t).activeTokens now [tid, fresh] = [] := by
  unfold Db.activeTokens Db.revokeRefreshToken
  rw [List.filter_eq_nil_iff]
  intro r hr
  simp only [List.mem_map] at hr
  rcases hr with ⟨r0, hr0, heq⟩
  by_cases hc : r0.token_id = tid ∧ r0.revoked_at = none
  · rw [if_pos hc] at heq
    rw [← heq]
    simp
  · rw [if_neg hc] at heq
    rw [← heq]
    simp only [decide_eq_true_eq, not_and, List.mem_cons,
      List.mem_singleton]
    rintro (h | (h | h)) hrev
    · exact absurd ⟨h, hrev⟩ hc
    · exact absurd h (hfresh r0 hr0)
    · exact absurd h (List.not_mem_nil r0.token_id)

theorem lineage_filter_le_one (l : List RefreshTokenRow)
    (p : RefreshTokenRow → Bool) (tid : String)
    (hpair : l.Pairwise (fun r1 r2 => r1.token_id ≠ r2.token_id))
    (himpl : ∀ r ∈ l, p r = true → r.token_id = tid) :
    (l.filter p).length ≤ 1 := by
  induction l with
  | nil => simp
  | cons r rest ih =>
      rw [List.pairwise_cons] at hpair
      by_cases hp : p r = true
      · have htid := himpl r (by simp) hp
        have hrest : rest.filter p = [] := by
          rw [List.filter_eq_nil_iff]
          intro r2 hr2 hp2
          have h2 := himpl r2 (by simp [hr2]) hp2
          exact (hpair.1 r2 hr2) (htid.trans h2.symm)
        simp [List.filter_cons, hp, hrest]
      · simp only [List.filter_cons, hp, Bool.false_eq_true, if_false]
        exact ih hpair.2 (fun r2 h2 hp2 => himpl r2 (by simp [h2]) hp2)

theorem activeTokens_le_one (db : Db) (now : Int) (tid fresh : String)
    (hpk : tokenIdsDistinct db) (hfresh : tokenIdFresh db fresh) :
    (db.activeTokens now [tid, fresh]).length ≤ 1 := by
  unfold Db.activeTokens
  apply lineage_filter_le_one _ _ tid hpk
  intro r hr hp
  simp only [decide_eq_true_eq, List.mem_cons, List.mem_singleton] at hp
  rcases hp.1 with h | (h | h)
  · exact h
  · exact absurd h (hfresh r hr)
  · exact absurd h (List.not_mem_nil r.token_id)

/-- C4: in `refresh_access_token` the presented record is revoked
strictly before the replacement is issued.  Along the whole sequence of
states the operation passes through (one entry in `rotationTrace` per
committed repository call; the last entry is the operation's final
state), at most one token of the rotation lineage (the presented record
and the freshly issued token id) is active; in every state where the
fresh token exists the presented record is already revoked (so two
active lineage tokens never coexist); and the state between the revoke
and the re-issue — `revoke_refresh_token`'s output — holds no usable
lineage token at all, so an interruption there fails closed. -/
theorem C4_rotation_revoke_before_issue (env : Env) (db : Db) (raw : String)
    (scopes : Option (List String)) (record : RefreshTokenRow)
    (hfind : db.findRefreshToken (env.hashFn raw) = some record)
    (hpk : tokenIdsDistinct db)
    (hfresh : tokenIdFresh db env.freshTokenId) :
    (AccountService.rotationTrace env db raw scopes).getLast? =
      some (AccountService.refreshAccessToken env db raw scopes).2
    ∧ (∀ s ∈ AccountService.rotationTrace env db raw scopes,
        (s.activeTokens env.now [record.token_id, env.freshTokenId]).length ≤ 1)
    ∧ (∀ s ∈ AccountService.rotationTrace env db raw scopes,
        (∃ r ∈ s.refreshTokens, r.token_id = env.freshTokenId) →
        ∀ r ∈ s.refreshTokens, r.token_id = record.token_id →
          r.revoked_at ≠ none)
    ∧ (db.revokeRefreshToken record.token_id env.now).activeTokens env.now
        [record.token_id, env.freshTokenId] = [] := by
  obtain ⟨hmemrec, hhash, hrevnone⟩ := findRefreshToken_spec db _ record hfind
  have hne : record.token_id ≠ env.freshTokenId := hfresh record hmemrec
  have hnil1 : (db.revokeRefreshToken record.token_id env.now).activeTokens
      env.now [record.token_id, env.freshTokenId] = [] :=
    activeTokens_revoked_nil db record.token_id env.now env.now
      env.freshTokenId hfresh
  have h0 : (db.activeTokens env.now
      [record.token_id, env.freshTokenId]).length ≤ 1 :=
    activeTokens_le_one db env.now record.token_id env.freshTokenId hpk hfresh
  have hfresh1 : tokenIdFresh (db.revokeRefreshToken record.token_id env.now)
      env.freshTokenId :=
    tokenIdFresh_revoke db record.token_id env.now env.freshTokenId hfresh
  have hallrev1 := revokeRefreshToken_all_revoked db record.token_id env.now
  have hnotin0 : ¬ ∃ r ∈ db.refreshTokens, r.token_id = env.freshTokenId := by
    rintro ⟨r, hr, hid⟩
    exact hfresh r hr hid
  have hnotin1 : ¬ ∃ r ∈ (db.revokeRefreshToken record.token_id
      env.now).refreshTokens, r.token_id = env.freshTokenId := by
    rintro ⟨r, hr, hid⟩
    exact hfresh1 r hr hid
  have hkey : ∀ (row : RefreshTokenRow) (A : List Account)
      (I : List (String × String × String)) (L : List AuditRow) (N : Int),
      (Db.activeTokens ⟨A, I,
        (db.revokeRefreshToken record.token_id env.now).refreshTokens ++ [row],
        L, N⟩ env.now [record.token_id, env.freshTokenId]).length ≤ 1 := by
    intro row A I L N
    have h1 : (db.revokeRefreshToken record.token_id
        env.now).refreshTokens.filter (fun r =>
          decide (r.token_id ∈ ([record.token_id, env.freshTokenId] :
            List String) ∧ r.revoked_at = none ∧ env.now < r.expires_at)) = [] := by
      have := hnil1
      unfold Db.activeTokens at this
      exact this
    unfold Db.activeTokens
    simp only [List.filter_append, h1, List.nil_append]
    simpa using List.length_filter_le _ [row]
  have hco : ∀ (row : RefreshTokenRow),
      row.token_id = env.freshTokenId →
      ∀ r ∈ (db.revokeRefreshToken record.token_id
          env.now).refreshTokens ++ [row],
        r.token_id = record.token_id → r.revoked_at ≠ none := by
    intro row hrow r hr htid
    rcases List.mem_append.mp hr with h | h
    · exact hallrev1 r h htid
    · simp only [List.mem_singleton] at h
      subst h
      exact absurd (htid.symm.trans hrow) hne
  simp only [AccountService.rotationTrace, AccountService.refreshAccessToken]
  rw [hfind]
  simp only [hrevnone, Option.isSome_none, Bool.false_eq_true, if_false]
  by_cases hexp : record.expires_at ≤ env.now
  · simp only [if_pos hexp]
    refine ⟨rfl, ?_, ?_, hnil1⟩
    · intro s hs
      simp only [List.mem_cons, List.not_mem_nil, or_false] at hs
      rcases hs with rfl | rfl
      · exact h0
      · simp [hnil1]
    · intro s hs hex
      simp only [List.mem_cons, List.not_mem_nil, or_false] at hs
      rcases hs with rfl | rfl
      · exact absurd hex hnotin0
      · exact absurd hex hnotin1
  · simp only [if_neg hexp]
    cases hga : db.getAccount record.account_id record.tenant_id with
    | none =>
        simp only [hga]
        refine ⟨rfl, ?_, ?_, hnil1⟩
        · intro s hs
          simp only [List.mem_cons, List.not_mem_nil, or_false] at hs
          rcases hs with rfl | rfl
          · exact h0
          · simp [hnil1]
        · intro s hs hex
          simp only [List.mem_cons, List.not_mem_nil, or_false] at hs
          rcases hs with rfl | rfl
          · exact absurd hex hnotin0
          · exact absurd hex hnotin1
    | some account =>
        simp only [hga]
        by_cases hdis : account.disabled = true
        · simp only [hdis, if_true]
          refine ⟨rfl, ?_, ?_, hnil1⟩
          · intro s hs
            simp only [List.mem_cons, List.not_mem_nil, or_false] at hs
            rcases hs with rfl | rfl
            · exact h0
            · simp [hnil1]
          · intro s hs hex
            simp only [List.mem_cons, List.not_mem_nil, or_false] at hs
            rcases hs with rfl | rfl
            · exact absurd hex hnotin0
            · exact absurd hex hnotin1
        · simp only [if_neg hdis]
          simp only [AccountService.issueToken]
          cases hga2 : (db.revokeRefreshToken record.token_id
              env.now).getAccount account.account_id record.tenant_id with
          | none =>
              simp only [hga2]
              refine ⟨rfl, ?_, ?_, hnil1⟩
              · intro s hs
                simp only [List.mem_cons, List.not_mem_nil, or_false] at hs
                rcases hs with rfl | rfl
                · exact h0
                · simp [hnil1]
              · intro s hs hex
                simp only [List.mem_cons, List.not_mem_nil, or_false] at hs
                rcases hs with rfl | rfl
                · exact absurd hex hnotin0
                · exact absurd hex hnotin1
          | some account2 =>
              simp only [hga2]
              refine ⟨rfl, ?_, ?_, hnil1⟩
              · intro s hs
                simp only [List.mem_cons, List.not_mem_nil, or_false] at hs
                rcases hs with rfl | rfl | rfl | rfl | rfl
                · exact h0
                · simp [hnil1]
                · exact hkey _ _ _ _ _
                · exact hkey _ _ _ _ _
                · exact hkey _ _ _ _ _
              · intro s hs hex
                simp only [List.mem_cons, List.not_mem_nil, or_false] at hs
                rcases hs with rfl | rfl | rfl | rfl | rfl
                · exact absurd hex hnotin0
                · exact absurd hex hnotin1
                · exact hco _ rfl
                · exact hco _ rfl
                · exact hco _ rfl

/-- Witness for C4: rotating the concrete active row leaves no active
lineage token in the state between revoke and re-issue. -/
theorem C4_rotation_revoke_before_issue_witness :
    sampleDbActive.findRefreshToken (sampleEnv.hashFn "raw-1") =
      some sampleRowActive
    ∧ tokenIdsDistinct sampleDbActive
    ∧ tokenIdFresh sampleDbActive sampleEnv.freshTokenId
    ∧ (sampleDbActive.revokeRefreshToken sampleRowActive.token_id
        sampleEnv.now).activeTokens sampleEnv.now
          [sampleRowActive.token_id, sampleEnv.freshTokenId] = [] :=
  ⟨by decide, by unfold tokenIdsDistinct; decide,
    by unfold tokenIdFresh; decide,
    (C4_rotation_revoke_before_issue sampleEnv sampleDbActive "raw-1" none
      sampleRowActive (by decide) (by unfold tokenIdsDistinct; decide)
      (by unfold tokenIdFresh; decide)).2.2.2⟩

/-! ### Audit pagination lemmas -/

theorem auditMatch_some (tenant : String) (aid et : Option String)
    (ca cb : Option Int) (c : Int × Int) (r : AuditRow) :
    auditMatch tenant aid et ca cb (some c) r =
      (auditMatch tenant aid et ca cb none r &&
        decide (pairLt (auditKey r) c)) := by
  unfold auditMatch
  simp only [Bool.and_true]

theorem pairwise_auditGT_of_sorted (l : List AuditRow)
    (hs : l.Sorted auditGE)
    (hd : l.Pairwise (fun r s => r.audit_id ≠ s.audit_id)) :
    l.Pairwise auditGT := by
  have hand : l.Pairwise (fun a b => auditGE a b ∧ a.audit_id ≠ b.audit_id) :=
    List.Pairwise.and hs hd
  apply hand.imp
  intro a b hab
  obtain ⟨hge, hne⟩ := hab
  unfold auditGE pairLe auditKey at hge
  unfold auditGT pairLt auditKey
  simp only at hge ⊢
  omega

theorem sortAuditDesc_perm (l : List AuditRow) :
    List.Perm (sortAuditDesc l) l :=
  List.perm_insertionSort auditGE l

theorem sortAuditDesc_sorted (l : List AuditRow) :
    (sortAuditDesc l).Sorted auditGE :=
  List.sorted_insertionSort auditGE l

theorem sortAuditDesc_distinct (l : List AuditRow)
    (hd : l.Pairwise (fun r s => r.audit_id ≠ s.audit_id)) :
    (sortAuditDesc l).Pairwise (fun r s => r.audit_id ≠ s.audit_id) :=
  ((sortAuditDesc_perm l).pairwise_iff (fun hab => hab.symm)).mpr hd

theorem sortAuditDesc_strict (l : List AuditRow)
    (hd : l.Pairwise (fun r s => r.audit_id ≠ s.audit_id)) :
    (sortAuditDesc l).Pairwise auditGT :=
  pairwise_auditGT_of_sorted _ (sortAuditDesc_sorted l) (sortAuditDesc_distinct l hd)

theorem sortAuditDesc_filter (l : List AuditRow) (p : AuditRow → Bool)
    (hd : l.Pairwise (fun r s => r.audit_id ≠ s.audit_id)) :
    sortAuditDesc (l.filter p) = (sortAuditDesc l).filter p := by
  apply List.eq_of_perm_of_sorted (r := auditGT)
  · exact (sortAuditDesc_perm _).trans ((sortAuditDesc_perm l).symm.filter p)
  · exact sortAuditDesc_strict _ (hd.sublist (List.filter_sublist l))
  · exact (sortAuditDesc_strict l hd).sublist (List.filter_sublist _)

theorem pairLt_asymm (a b : Int × Int) (h : pairLt a b) : ¬ pairLt b a := by
  unfold pairLt at h ⊢
  omega

theorem pairLt_irrefl (a : Int × Int) : ¬ pairLt a a := by
  unfold pairLt
  omega

theorem mem_of_getLast?_eq_some {l : List AuditRow} {a : AuditRow}
    (h : l.getLast? = some a) : a ∈ l := by
  obtain ⟨hne, heq⟩ := List.mem_getLast?_eq_getLast (show a ∈ l.getLast? by simp [h])
  rw [heq]
  exact List.getLast_mem hne

theorem not_lt_getLast_of_pairwise (page : List AuditRow)
    (hp : page.Pairwise auditGT) :
    ∀ last, page.getLast? = some last →
      ∀ r ∈ page, ¬ pairLt (auditKey r) (auditKey last) := by
  induction page with
  | nil => intro last h; simp at h
  | cons x xs ih =>
      rw [List.pairwise_cons] at hp
      intro last hlast r hr
      cases hxs : xs with
      | nil =>
          subst hxs
          simp only [List.getLast?_singleton, Option.some.injEq] at hlast
          simp only [List.mem_singleton] at hr
          subst hlast
          subst hr
          exact pairLt_irrefl _
      | cons y ys =>
          subst hxs
          rw [List.getLast?_cons_cons] at hlast
          have hmem : last ∈ y :: ys := mem_of_getLast?_eq_some hlast
          rcases List.mem_cons.mp hr with h | h
          · subst h
            exact pairLt_asymm _ _ (hp.1 last hmem)
          · exact ih hp.2 last hlast r h

theorem filter_lt_last (pre page post : List AuditRow)
    (hstrict : (pre ++ (page ++ post)).Pairwise auditGT)
    (last : AuditRow) (hlast : page.getLast? = some last) :
    (pre ++ (page ++ post)).filter (fun r =>
        decide (pairLt (auditKey r) (auditKey last))) = post := by
  rw [List.pairwise_append] at hstrict
  obtain ⟨hpre, hrest, hcross⟩ := hstrict
  rw [List.pairwise_append] at hrest
  obtain ⟨hpage, hpost, hcross2⟩ := hrest
  have hlastmem : last ∈ page := mem_of_getLast?_eq_some hlast
  rw [List.filter_append, List.filter_append]
  have h1 : pre.filter (fun r =>
      decide (pairLt (auditKey r) (auditKey last))) = [] := by
    rw [List.filter_eq_nil_iff]
    intro r hr
    simp only [decide_eq_true_eq]
    have hgt := hcross r hr last (by simp [hlastmem])
    exact pairLt_asymm _ _ hgt
  have h2 : page.filter (fun r =>
      decide (pairLt (auditKey r) (auditKey last))) = [] := by
    rw [List.filter_eq_nil_iff]
    intro r hr
    simp only [decide_eq_true_eq]
    exact not_lt_getLast_of_pairwise page hpage last hlast r hr
  have h3 : post.filter (fun r =>
      decide (pairLt (auditKey r) (auditKey last))) = post := by
    rw [List.filter_eq_self]
    intro r hr
    simp only [decide_eq_true_eq]
    exact hcross2 last hlastmem r hr
  rw [h1, h2, h3]
  simp

theorem pageLimit_pos (limit : Int) : 1 ≤ pageLimit limit := by
  unfold pageLimit
  have h : (1 : Int) ≤ max 1 (min limit 100) := le_max_left 1 _
  omega

theorem sortAuditDesc_cursor_split (db : Db) (tenant : String)
    (aid et : Option String) (ca cb : Option Int) (c : Int × Int)
    (hdist : auditIdsDistinct db) :
    sortAuditDesc (db.auditLog.filter
        (auditMatch tenant aid et ca cb (some c))) =
      (sortAuditDesc (db.auditLog.filter
        (auditMatch tenant aid et ca cb none))).filter
          (fun r => decide (pairLt (auditKey r) c)) := by
  have h1 : db.auditLog.filter (auditMatch tenant aid et ca cb (some c)) =
      (db.auditLog.filter (auditMatch tenant aid et ca cb none)).filter
        (fun r => decide (pairLt (auditKey r) c)) := by
    rw [List.filter_filter]
    apply List.filter_congr
    intro r _
    rw [auditMatch_some]
    rw [Bool.and_comm]
  rw [h1]
  exact sortAuditDesc_filter _ _ (hdist.sublist (List.filter_sublist _))

theorem paginateAuditEvents_suffix (db : Db) (tenant : String)
    (aid et : Option String) (ca cb : Option Int) (limit : Int)
    (hdist : auditIdsDistinct db) :
    ∀ (fuel : Nat) (pre rest : List AuditRow) (cursor : Option (Int × Int)),
      rest.length < fuel →
      sortAuditDesc (db.auditLog.filter
        (auditMatch tenant aid et ca cb none)) = pre ++ rest →
      sortAuditDesc (db.auditLog.filter
        (auditMatch tenant aid et ca cb cursor)) = rest →
      db.paginateAuditEvents tenant aid et ca cb limit fuel cursor = rest := by
  intro fuel
  induction fuel with
  | zero =>
      intro pre rest cursor hfuel _ _
      omega
  | succ fuel ih =>
      intro pre rest cursor hfuel hsplit hq
      have hstrict : (pre ++ rest).Pairwise auditGT := by
        rw [← hsplit]
        exact sortAuditDesc_strict _ (hdist.sublist (List.filter_sublist _))
      have hrec : db.listAuditEvents tenant aid et ca cb limit cursor =
          (rest.take (pageLimit limit),
            if (rest.take (pageLimit limit)).length = pageLimit limit then
              (rest.take (pageLimit limit)).getLast?.map auditKey
            else none) := by
        simp only [Db.listAuditEvents]
        rw [hq]
      have hlim1 := pageLimit_pos limit
      have hlentake := List.length_take (pageLimit limit) rest
      by_cases hfull : (rest.take (pageLimit limit)).length = pageLimit limit
      · -- full page: follow the returned cursor
        have hlen : pageLimit limit ≤ rest.length := by omega
        have hpagene : rest.take (pageLimit limit) ≠ [] := by
          intro hnil
          rw [hnil] at hfull
          simp at hfull
          omega
        have hlast := List.getLast?_eq_getLast_of_ne_nil hpagene
        have hdecomp : rest =
            rest.take (pageLimit limit) ++ rest.drop (pageLimit limit) :=
          (List.take_append_drop _ _).symm
        have hstrict2 : (pre ++ (rest.take (pageLimit limit) ++
            rest.drop (pageLimit limit))).Pairwise auditGT := by
          rw [← hdecomp]
          exact hstrict
        have hq2 : sortAuditDesc (db.auditLog.filter
            (auditMatch tenant aid et ca cb
              (some (auditKey ((rest.take (pageLimit limit)).getLast
                hpagene))))) = rest.drop (pageLimit limit) := by
          rw [sortAuditDesc_cursor_split db tenant aid et ca cb _ hdist]
          rw [hsplit]
          have happ : pre ++ rest = pre ++ (rest.take (pageLimit limit) ++
              rest.drop (pageLimit limit)) := by
            rw [← hdecomp]
          rw [happ]
          exact filter_lt_last pre _ _ hstrict2 _ hlast
        have hsplit2 : sortAuditDesc (db.auditLog.filter
            (auditMatch tenant aid et ca cb none)) =
            (pre ++ rest.take (pageLimit limit)) ++
              rest.drop (pageLimit limit) := by
          rw [hsplit]
          nth_rewrite 1 [hdecomp]
          rw [List.append_assoc]
        have hfuel2 : (rest.drop (pageLimit limit)).length < fuel := by
          rw [List.length_drop]
          omega
        have hres := ih (pre ++ rest.take (pageLimit limit))
          (rest.drop (pageLimit limit))
          (some (auditKey ((rest.take (pageLimit limit)).getLast hpagene)))
          hfuel2 hsplit2 hq2
        have hnext : (db.listAuditEvents tenant aid et ca cb limit cursor).2 =
            some (auditKey ((rest.take (pageLimit limit)).getLast hpagene)) := by
          simp only [hrec]
          rw [if_pos hfull, hlast]
          rfl
        have hpage1 : (db.listAuditEvents tenant aid et ca cb limit cursor).1 =
            rest.take (pageLimit limit) := by
          simp only [hrec]
        simp only [Db.paginateAuditEvents, hnext, hpage1]
        rw [hres]
        exact List.take_append_drop _ _
      · -- short page: no next cursor, page is the remainder
        have htake : rest.take (pageLimit limit) = rest := by
          apply List.take_of_length_le
          omega
        have hnone : (db.listAuditEvents tenant aid et ca cb limit cursor).2 =
            none := by
          simp only [hrec]
          rw [if_neg hfull]
        have hpage1 : (db.listAuditEvents tenant aid et ca cb limit cursor).1 =
            rest.take (pageLimit limit) := by
          simp only [hrec]
        simp only [Db.paginateAuditEvents, hnone, hpage1]
        exact htake

/-- C5: on a fixed audit log with distinct `audit_id`s, (1) starting
`list_audit_events` with no cursor and repeatedly following the
returned `next_cursor` concatenates to exactly the descending-sorted
list of all records matching the tenant and filters; (2) that list is a
permutation of the matching records (each appears exactly once, no
duplicates, no omissions); (3) it is strictly decreasing in the
composite key (`created_at`, `audit_id`); and (4) every cursored query
returns only records strictly below the cursor's decoded
(`created_at`, `audit_id`) pair in the lexicographic row order. -/
theorem C5_audit_pagination (db : Db) (tenant : String)
    (aid et : Option String) (ca cb : Option Int) (limit : Int)
    (hdist : auditIdsDistinct db) :
    (∀ fuel : Nat, db.auditLog.length < fuel →
      db.paginateAuditEvents tenant aid et ca cb limit fuel none =
        sortAuditDesc (db.auditLog.filter
          (auditMatch tenant aid et ca cb none)))
    ∧ List.Perm
        (sortAuditDesc (db.auditLog.filter
          (auditMatch tenant aid et ca cb none)))
        (db.auditLog.filter (auditMatch tenant aid et ca cb none))
    ∧ (sortAuditDesc (db.auditLog.filter
        (auditMatch tenant aid et ca cb none))).Pairwise auditGT
    ∧ (∀ (c : Int × Int) (r : AuditRow),
        r ∈ (db.listAuditEvents tenant aid et ca cb limit (some c)).1 →
        pairLt (auditKey r) c) := by
  refine ⟨?_, sortAuditDesc_perm _,
    sortAuditDesc_strict _ (hdist.sublist (List.filter_sublist _)), ?_⟩
  · intro fuel hfuel
    have h1 : (sortAuditDesc (db.auditLog.filter
        (auditMatch tenant aid et ca cb none))).length =
        (db.auditLog.filter (auditMatch tenant aid et ca cb none)).length :=
      (sortAuditDesc_perm _).length_eq
    have h2 := List.length_filter_le
      (auditMatch tenant aid et ca cb none) db.auditLog
    exact paginateAuditEvents_suffix db tenant aid et ca cb limit hdist fuel
      [] _ none (by omega) (by simp) rfl
  · intro c r hr
    simp only [Db.listAuditEvents] at hr
    have h1 : r ∈ sortAuditDesc (db.auditLog.filter
        (auditMatch tenant aid et ca cb (some c))) :=
      List.mem_of_mem_take hr
    have h2 : r ∈ db.auditLog.filter
        (auditMatch tenant aid et ca cb (some c)) :=
      (sortAuditDesc_perm _).mem_iff.mp h1
    have h3 := List.of_mem_filter h2
    rw [auditMatch_some] at h3
    have h4 := (Bool.and_eq_true _ _).mp h3
    exact of_decide_eq_true h4.2

/-- Witness for C5: paginating the three-row sample log with page size
2 yields the full sorted matching list. -/
theorem C5_audit_pagination_witness :
    auditIdsDistinct sampleAuditDb
    ∧ sampleAuditDb.auditLog.length < 5
    ∧ sampleAuditDb.paginateAuditEvents "t1" none none none none 2 5 none =
        sortAuditDesc (sampleAuditDb.auditLog.filter
          (auditMatch "t1" none none none none none)) :=
  ⟨by unfold auditIdsDistinct; decide, by decide,
    (C5_audit_pagination sampleAuditDb "t1" none none none none 2
      (by unfold auditIdsDistinct; decide)).1 5 (by decide)⟩
